import Mathlib

/-!
Verification of the Barnes-Hut N-body simulation engine (Go sources:
`functions.go`, driver and tests in `main.go`).

The Go program works on `float64`; we model floating-point numbers by real
numbers, so every arithmetic identity below is exact real arithmetic.
Pointer-manipulating Go code is embedded as pure functions:

* `Node.children` in Go is a `[]*Node` that is either empty or holds exactly
  the four non-nil children created by `Subdivide` (NW, NE, SW, SE, in that
  order); nil children never occur in any tree the program builds.  We model a
  node with the two-constructor inductive `Node`: `base` (no children) and
  `quad` (exactly four children).  The source's `child != nil` guards are
  identically true under this model and `IsLeaf` becomes the constructor test.
* `InsertStar` recurses without any structural bound and genuinely diverges on
  coincident bodies, so it is embedded with explicit fuel: `none` models
  non-termination (or a nil-slice index panic, which never happens on the
  trees the program builds).
* Go compares star pointers (`node.star != currStar`).  A pointer-equal pair
  is value-equal, and whenever two stars are value-equal their distance is 0,
  a case in which every force contribution below is 0 anyway; so value
  equality yields the same results as pointer equality and is what we use.
* The struct declarations and the gravitational constant live in
  `datatypes.go`, which is not among the provided sources; they are modelled
  from the spec (section 3 of the design document and the README).
-/

namespace BarnesHutSim

noncomputable section

/-- Modelled from the spec: 2D point/vector type `OrderedPair` from the
missing `datatypes.go` ("(x, y) real-valued pair"). -/
structure OrderedPair where
  x : ℝ
  y : ℝ

/-- Modelled from the spec: an axis-aligned square region given by its
lower-left corner and side width (`Quadrant` in `datatypes.go`). -/
structure Quadrant where
  x : ℝ
  y : ℝ
  width : ℝ

/-- Modelled from the spec: a body (`Star` in `datatypes.go`): position,
velocity, acceleration, mass, radius, and display-only RGB color. -/
structure Star where
  position : OrderedPair
  velocity : OrderedPair
  acceleration : OrderedPair
  mass : ℝ
  radius : ℝ
  red : UInt8
  green : UInt8
  blue : UInt8

/-- Modelled from the spec: a snapshot (`Universe` in `datatypes.go`): a
square domain width plus an ordered sequence of bodies. -/
structure Universe where
  width : ℝ
  stars : List Star

/-- Quadtree node.  `base` models a Go node with empty `children` (empty node
or leaf); `quad` models a node whose `children` slice holds the four non-nil
nodes made by `Subdivide`, in source order NW, NE, SW, SE. -/
inductive Node where
  | base (sector : Quadrant) (star : Option Star)
  | quad (sector : Quadrant) (star : Option Star) (nw ne sw se : Node)

/-- Projection of the `sector` field of a node. -/
def Node.sector : Node → Quadrant
  | base q _ => q
  | quad q _ _ _ _ _ => q

/-- Projection of the `star` field of a node. -/
def Node.star : Node → Option Star
  | base _ st => st
  | quad _ st _ _ _ _ => st

/-- Modelled from the spec: the tree type wrapping the root node. -/
structure QuadTree where
  root : Node

/-- Modelled from the spec: the gravitational constant `G` declared in the
missing `datatypes.go`; SI value.  All theorems below depend on its value only
through `G ≠ 0`. -/
def G : ℝ := 6.674e-11

noncomputable instance : DecidableEq OrderedPair := Classical.decEq _

noncomputable instance : DecidableEq Star := Classical.decEq _

/-- Go `Distance`: returns `(deltaX, deltaY, sqrt (deltaX² + deltaY²))`. -/
def distance (p1 p2 : OrderedPair) : ℝ × ℝ × ℝ :=
  let deltaX := p1.x - p2.x
  let deltaY := p1.y - p2.y
  (deltaX, deltaY, Real.sqrt (deltaX * deltaX + deltaY * deltaY))

/-- Go `IsInsideUniverse`: closed-square bounds check. -/
def isInsideUniverse (s : Star) (width : ℝ) : Bool :=
  decide (s.position.x ≥ 0 ∧ s.position.x ≤ width ∧ s.position.y ≥ 0 ∧ s.position.y ≤ width)

/-- Go `IsLeaf`: true iff the node has no (non-nil) children. -/
def isLeaf : Node → Bool
  | Node.base _ _ => true
  | Node.quad _ _ _ _ _ _ => false

/-- Sector of the NW child created by Go `Subdivide`. -/
def nwSector (q : Quadrant) : Quadrant :=
  { x := q.x, y := q.y + q.width / 2, width := q.width / 2 }

/-- Sector of the NE child created by Go `Subdivide`. -/
def neSector (q : Quadrant) : Quadrant :=
  { x := q.x + q.width / 2, y := q.y + q.width / 2, width := q.width / 2 }

/-- Sector of the SW child created by Go `Subdivide`. -/
def swSector (q : Quadrant) : Quadrant :=
  { x := q.x, y := q.y, width := q.width / 2 }

/-- Sector of the SE child created by Go `Subdivide`. -/
def seSector (q : Quadrant) : Quadrant :=
  { x := q.x + q.width / 2, y := q.y, width := q.width / 2 }

/-- Go `FindQuadrant`: 0 = NW, 1 = NE, 2 = SW, 3 = SE.  The source returns an
`int` that is always in 0..3, which we refine to `Fin 4`. -/
def findQuadrant (sector : Quadrant) (s : Star) : Fin 4 :=
  let midX := sector.x + sector.width / 2
  let midY := sector.y + sector.width / 2
  let sX := s.position.x
  let sY := s.position.y
  if sX < midX ∧ sY ≥ midY then 0
  else if sX ≥ midX ∧ sY ≥ midY then 1
  else if sX < midX ∧ sY < midY then 2
  else 3

mutual

/-- Go `InsertStar`, with explicit recursion fuel (`none` = the source
recursion does not terminate within `fuel` nested calls).  Case 1: empty
childless node stores the star.  Case 2: childless node with a star runs
`Subdivide` (four empty children, `node.star = nil`) and reinserts the old
star and then the new star.  Case 3: a node with children descends into the
child given by `FindQuadrant`. -/
def insertStar : Nat → Node → Star → Option Node
  | 0, _, _ => none
  | _ + 1, Node.base q none, s => some (Node.base q (some s))
  | fuel + 1, Node.base q (some t), s =>
      match insertChild fuel (Node.base (nwSector q) none) (Node.base (neSector q) none)
          (Node.base (swSector q) none) (Node.base (seSector q) none) (findQuadrant q t) t with
      | none => none
      | some (nw1, ne1, sw1, se1) =>
          match insertChild fuel nw1 ne1 sw1 se1 (findQuadrant q s) s with
          | none => none
          | some (nw2, ne2, sw2, se2) => some (Node.quad q none nw2 ne2 sw2 se2)
  | fuel + 1, Node.quad q st nw ne sw se, s =>
      match insertChild fuel nw ne sw se (findQuadrant q s) s with
      | none => none
      | some (nw1, ne1, sw1, se1) => some (Node.quad q st nw1 ne1 sw1 se1)
termination_by fuel _ _ => (fuel, 0)

/-- Go `node.children[i] = ...; InsertStar(node.children[i], s)`: insert into
the `i`-th child of a subdivided quadruple. -/
def insertChild : Nat → Node → Node → Node → Node → Fin 4 → Star → Option (Node × Node × Node × Node)
  | fuel, nw, ne, sw, se, i, s =>
      match i with
      | 0 => (insertStar fuel nw s).map fun nw1 => (nw1, ne, sw, se)
      | 1 => (insertStar fuel ne s).map fun ne1 => (nw, ne1, sw, se)
      | 2 => (insertStar fuel sw s).map fun sw1 => (nw, ne, sw1, se)
      | 3 => (insertStar fuel se s).map fun se1 => (nw, ne, sw, se1)
termination_by fuel _ _ _ _ _ _ => (fuel, 1)

end

/-- Mass contribution a child makes in Go `ComputeCenterAndMass`
(`child.star.mass` when `child.star != nil`, else nothing). -/
def childMass (c : Node) : ℝ :=
  match c.star with
  | some cs => cs.mass
  | none => 0

/-- The `m * child.star.position.x` contribution in Go `ComputeCenterAndMass`. -/
def childMomentX (c : Node) : ℝ :=
  match c.star with
  | some cs => cs.mass * cs.position.x
  | none => 0

/-- The `m * child.star.position.y` contribution in Go `ComputeCenterAndMass`. -/
def childMomentY (c : Node) : ℝ :=
  match c.star with
  | some cs => cs.mass * cs.position.y
  | none => 0

/-- Go `ComputeCenterAndMass`: post-order aggregation.  Childless nodes are
unchanged; a node with children first recurses into all four children, sums
the children's star masses and mass-weighted positions, and (only if the
total mass is positive) stores the aggregate star; all other `Star` fields of
the aggregate take Go zero values. -/
def computeCenterAndMass : Node → Node
  | Node.base q st => Node.base q st
  | Node.quad q st nw ne sw se =>
      let nw1 := computeCenterAndMass nw
      let ne1 := computeCenterAndMass ne
      let sw1 := computeCenterAndMass sw
      let se1 := computeCenterAndMass se
      let totalMass := childMass nw1 + childMass ne1 + childMass sw1 + childMass se1
      let xCm := childMomentX nw1 + childMomentX ne1 + childMomentX sw1 + childMomentX se1
      let yCm := childMomentY nw1 + childMomentY ne1 + childMomentY sw1 + childMomentY se1
      if 0 < totalMass then
        Node.quad q (some
          { position := { x := xCm / totalMass, y := yCm / totalMass },
            velocity := { x := 0, y := 0 },
            acceleration := { x := 0, y := 0 },
            mass := totalMass,
            radius := 0, red := 0, green := 0, blue := 0 }) nw1 ne1 sw1 se1
      else
        Node.quad q st nw1 ne1 sw1 se1

/-- Go `GenerateQuadTree`'s insertion loop: insert the stars in order,
skipping stars outside the universe. -/
def insertUniverseStars (fuel : Nat) (width : ℝ) : Node → List Star → Option Node
  | node, [] => some node
  | node, s :: rest =>
      if isInsideUniverse s width then
        match insertStar fuel node s with
        | none => none
        | some node1 => insertUniverseStars fuel width node1 rest
      else insertUniverseStars fuel width node rest

/-- Go `GenerateQuadTree`: root covering `[0,width]²`, insert all in-bounds
stars, then aggregate masses bottom-up. -/
def generateQuadTree (fuel : Nat) (currentUniverse : Universe) : Option QuadTree :=
  let root := Node.base { x := 0, y := 0, width := currentUniverse.width } none
  match insertUniverseStars fuel currentUniverse.width root currentUniverse.stars with
  | none => none
  | some filled => some { root := computeCenterAndMass filled }

/-- The opening-angle block of Go `CalculateNetForce`: when the node's star
is a different star at nonzero distance and `(width / d) < theta`, the source
adds `0.0` to both force components ("we do not consider the force given by
dummy star"); in every case the block leaves the accumulator at zero. -/
def thetaBlock (q : Quadrant) (st currStar : Star) (theta : ℝ) : OrderedPair :=
  if st ≠ currStar then
    if (distance st.position currStar.position).2.2 ≠ 0 then
      if q.width / (distance st.position currStar.position).2.2 < theta then
        { x := 0 + 0.0, y := 0 + 0.0 }
      else { x := 0, y := 0 }
    else { x := 0, y := 0 }
  else { x := 0, y := 0 }

/-- Go `CalculateNetForce`.  Early zero cases, the leaf pairwise-force branch,
the opening-angle block (which in the source adds `0.0` to both components in
the far case), and the unconditional recursion into the children. -/
def calculateNetForce : Node → Star → ℝ → OrderedPair
  | Node.base _ none, _, _ => { x := 0, y := 0 }
  | Node.base _ (some st), currStar, _ =>
      if st.mass = 0 then { x := 0, y := 0 }
      else if st ≠ currStar then
        let d3 := distance st.position currStar.position
        let dX := d3.1
        let dY := d3.2.1
        let d := d3.2.2
        if d ≠ 0 then
          let f := G * currStar.mass * st.mass / (d * d)
          { x := f * (dX / d), y := f * (dY / d) }
        else { x := 0, y := 0 }
      else { x := 0, y := 0 }
  | Node.quad q st? nw ne sw se, currStar, theta =>
      match st? with
      | none => { x := 0, y := 0 }
      | some st =>
          if st.mass = 0 then { x := 0, y := 0 }
          else
            let base0 : OrderedPair := thetaBlock q st currStar theta
            let fnw := calculateNetForce nw currStar theta
            let fne := calculateNetForce ne currStar theta
            let fsw := calculateNetForce sw currStar theta
            let fse := calculateNetForce se currStar theta
            { x := base0.x + fnw.x + fne.x + fsw.x + fse.x,
              y := base0.y + fnw.y + fne.y + fsw.y + fse.y }

/-- Go `ComputeForce`: direct pairwise Newtonian force of `b` on `b2`,
zero when the positions coincide. -/
def computeForce (b b2 : Star) : OrderedPair :=
  let d3 := distance b.position b2.position
  let dX := d3.1
  let dY := d3.2.1
  let d := d3.2.2
  if d = 0 then { x := 0, y := 0 }
  else
    let F := (G * b.mass * b2.mass) / (d * d)
    { x := F * dX / d, y := F * dY / d }

/-- Go `UpdateAcceleration`: net force from the tree divided by the target's
mass. -/
def updateAcceleration (s : Star) (tree : QuadTree) (theta : ℝ) : OrderedPair :=
  let force := calculateNetForce tree.root s theta
  { x := force.x / s.mass, y := force.y / s.mass }

/-- Go `UpdateVelocity`: reads the star's current (just updated) acceleration
and its not-yet-updated velocity. -/
def updateVelocity (s : Star) (oldAcceleration : OrderedPair) (time : ℝ) : OrderedPair :=
  { x := s.velocity.x + 0.5 * (s.acceleration.x + oldAcceleration.x) * time,
    y := s.velocity.y + 0.5 * (s.acceleration.y + oldAcceleration.y) * time }

/-- Go `UpdatePosition`: reads the star's not-yet-updated position and the
previous step's velocity and acceleration. -/
def updatePosition (s : Star) (oldAcceleration oldVelocity : OrderedPair) (time : ℝ) : OrderedPair :=
  { x := s.position.x + oldVelocity.x * time + 0.5 * oldAcceleration.x * time * time,
    y := s.position.y + oldVelocity.y * time + 0.5 * oldAcceleration.y * time * time }

/-- Go `CopyUniverse`: field-by-field copy of every star. -/
def copyUniverse (u : Universe) : Universe :=
  { width := u.width,
    stars := u.stars.map fun s =>
      { position := { x := s.position.x, y := s.position.y },
        velocity := { x := s.velocity.x, y := s.velocity.y },
        acceleration := { x := s.acceleration.x, y := s.acceleration.y },
        mass := s.mass,
        radius := s.radius,
        red := s.red,
        blue := s.blue,
        green := s.green } }

/-- Go `UpdateUniverse`: copy the universe, then for each star (in place, in
order) set acceleration from the tree, then velocity from the new and old
accelerations, then position from the old velocity and old acceleration. -/
def updateUniverse (currentUniverse : Universe) (time : ℝ) (tree : QuadTree) (theta : ℝ) : Universe :=
  let newUniverse := copyUniverse currentUniverse
  { width := newUniverse.width,
    stars := newUniverse.stars.map fun b =>
      let oldAcceleration := b.acceleration
      let oldVelocity := b.velocity
      let b1 := { b with acceleration := updateAcceleration b tree theta }
      let b2 := { b1 with velocity := updateVelocity b1 oldAcceleration time }
      { b2 with position := updatePosition b2 oldAcceleration oldVelocity time } }

/-- The generation loop of Go `BarnesHut`: starting from the snapshot that
occupies `timePoints[0]`, produce the remaining `numGens` snapshots.  `none`
models a run on which tree construction does not terminate. -/
def runGenerations (fuel : Nat) (time theta : ℝ) : Nat → Universe → Option (List Universe)
  | 0, _ => some []
  | n + 1, current =>
      match generateQuadTree fuel current with
      | none => none
      | some tree =>
          let newUniverse := updateUniverse current time tree theta
          match runGenerations fuel time theta n newUniverse with
          | none => none
          | some rest => some (newUniverse :: rest)

/-- Go `BarnesHut`: `timePoints[0]` is a deep copy of the input, and each
later snapshot is obtained from the previous one by building a quadtree and
updating the universe. -/
def barnesHut (fuel : Nat) (initialUniverse : Universe) (numGens : Nat) (time theta : ℝ) : Option (List Universe) :=
  let first := copyUniverse initialUniverse
  match runGenerations fuel time theta numGens first with
  | none => none
  | some rest => some (first :: rest)

/-! Derived notions used to state and prove the properties. -/

/-- The real bodies stored at the leaves of a (sub)tree, in traversal order. -/
def leafStars : Node → List Star
  | Node.base _ st => st.toList
  | Node.quad _ _ nw ne sw se => leafStars nw ++ leafStars ne ++ leafStars sw ++ leafStars se

/-- Total mass of the leaf bodies of a subtree. -/
def massSum (n : Node) : ℝ := ((leafStars n).map Star.mass).sum

/-- Mass-weighted x-position sum of the leaf bodies of a subtree. -/
def momentX (n : Node) : ℝ := ((leafStars n).map fun s => s.mass * s.position.x).sum

/-- Mass-weighted y-position sum of the leaf bodies of a subtree. -/
def momentY (n : Node) : ℝ := ((leafStars n).map fun s => s.mass * s.position.y).sum

/-- Direct O(n²) net force on `currStar`: the sum of `ComputeForce s currStar`
over a list of bodies (a coincident body, in particular `currStar` itself,
contributes zero). -/
def pairSum (stars : List Star) (currStar : Star) : OrderedPair :=
  { x := (stars.map fun s => (computeForce s currStar).x).sum,
    y := (stars.map fun s => (computeForce s currStar).y).sum }

/-- Membership of a point in the closed square of a quadrant. -/
def inSector (q : Quadrant) (p : OrderedPair) : Prop :=
  q.x ≤ p.x ∧ p.x ≤ q.x + q.width ∧ q.y ≤ p.y ∧ p.y ≤ q.y + q.width

/-- Shape invariant of trees built by insertion: every leaf body lies in its
node's closed sector, a node with children carries no star (the source nils
it out on `Subdivide`), and the four children carry the sectors `Subdivide`
assigns. -/
def wf : Node → Prop
  | Node.base q st => ∀ s ∈ st, inSector q s.position
  | Node.quad q st nw ne sw se =>
      st = none ∧ nw.sector = nwSector q ∧ ne.sector = neSector q ∧
      sw.sector = swSector q ∧ se.sector = seSector q ∧
      wf nw ∧ wf ne ∧ wf sw ∧ wf se

/-- Aggregation invariant established by `ComputeCenterAndMass`: an internal
node either stores no star and has zero total leaf mass, or stores an
aggregate star with exactly the (positive) total leaf mass and the
mass-weighted centroid of its leaf bodies. -/
def aggOK : Node → Prop
  | Node.base _ _ => True
  | Node.quad _ st nw ne sw se =>
      (st = none → massSum nw + massSum ne + massSum sw + massSum se = 0) ∧
      (∀ a, st = some a →
        a.mass = massSum nw + massSum ne + massSum sw + massSum se ∧
        a.position.x * a.mass = momentX nw + momentX ne + momentX sw + momentX se ∧
        a.position.y * a.mass = momentY nw + momentY ne + momentY sw + momentY se ∧
        0 < a.mass) ∧
      aggOK nw ∧ aggOK ne ∧ aggOK sw ∧ aggOK se

/-- All nodes of a tree, the node itself included. -/
def subNodes : Node → List Node
  | Node.base q st => [Node.base q st]
  | Node.quad q st nw ne sw se =>
      Node.quad q st nw ne sw se :: (subNodes nw ++ subNodes ne ++ subNodes sw ++ subNodes se)

/-- The four child sectors created by `Subdivide`, indexed like
`FindQuadrant`. -/
def sectorAt (q : Quadrant) : Fin 4 → Quadrant
  | 0 => nwSector q
  | 1 => neSector q
  | 2 => swSector q
  | 3 => seSector q

/-- Selection of one child from a quadruple of children, indexed like
`FindQuadrant` (Go `node.children[i]`). -/
def childOf (nw ne sw se : Node) : Fin 4 → Node
  | 0 => nw
  | 1 => ne
  | 2 => sw
  | 3 => se

/-- Replacement of one child in a quadruple of children (the in-place update
Go performs on `node.children[i]`). -/
def setChild (nw ne sw se : Node) : Fin 4 → Node → Node × Node × Node × Node
  | 0, c => (c, ne, sw, se)
  | 1, c => (nw, c, sw, se)
  | 2, c => (nw, ne, c, se)
  | 3, c => (nw, ne, sw, c)

/-- The multiset of real bodies stored at the leaves of a (sub)tree. -/
def leafBag (n : Node) : Multiset Star := (leafStars n : Multiset Star)

/-- The larger of the coordinate gaps between two stars; positive whenever the
positions differ, and at most the sector width when both lie in one sector. -/
def posGap (t s : Star) : ℝ :=
  max |t.position.x - s.position.x| |t.position.y - s.position.y|

/-- Empty concrete universe used to witness the driver contract. -/
def uC2 : Universe := { width := 10, stars := [] }

/-- Concrete star at `(px, py)` with mass `m`, at rest, with Go zero values
for the display fields; used for concrete witnesses and counterexamples. -/
def mkStar (px py m : ℝ) : Star :=
  { position := { x := px, y := py },
    velocity := { x := 0, y := 0 },
    acceleration := { x := 0, y := 0 },
    mass := m, radius := 0, red := 0, green := 0, blue := 0 }

/-- Concrete star used to witness the coincident-position cases. -/
def sC8a : Star := mkStar 1 1 1

/-- Concrete second star at the same position as `sC8a`. -/
def sC8b : Star := mkStar 1 1 2

/-- Concrete leaf node holding `sC8a`. -/
def nodeC8 : Node := Node.base { x := 0, y := 0, width := 4 } (some sC8a)

/-- Sector of the concrete internal node used for the far-branch claim. -/
def qC1 : Quadrant := { x := 0, y := 0, width := 2 }

/-- Concrete leaf body at `(0,0)` of mass 1. -/
def s00C1 : Star := mkStar 0 0 1

/-- Concrete leaf body at `(2,0)` of mass 1. -/
def s20C1 : Star := mkStar 2 0 1

/-- Aggregate body of `s00C1` and `s20C1`: their center of mass `(1,0)` with
their total mass 2, exactly as `ComputeCenterAndMass` stores it. -/
def aggC1 : Star := mkStar 1 0 2

/-- Concrete far-away target star at `(10,0)`. -/
def currC1 : Star := mkStar 10 0 1

/-- Concrete internal node: aggregate `aggC1`, leaves `s00C1` (SW) and
`s20C1` (SE), NW and NE empty. -/
def nodeC1 : Node :=
  Node.quad qC1 (some aggC1)
    (Node.base (nwSector qC1) none) (Node.base (neSector qC1) none)
    (Node.base (swSector qC1) (some s00C1)) (Node.base (seSector qC1) (some s20C1))

/-- Concrete star for the termination witness. -/
def d1C9 : Star := mkStar 1 1 1

/-- Concrete second star at a distinct position. -/
def d2C9 : Star := mkStar 2 2 1

/-- Concrete star for the divergence witness. -/
def sC9a : Star := mkStar 3 3 1

/-- Concrete star coincident with `sC9a`. -/
def sC9b : Star := mkStar 3 3 2

/-- Concrete star at `(1,1)` for the two-body tree. -/
def s1W : Star := mkStar 1 1 1

/-- Concrete star at `(3,3)` for the two-body tree. -/
def s2W : Star := mkStar 3 3 1

/-- Root sector of the two-body tree. -/
def q0W : Quadrant := { x := 0, y := 0, width := 4 }

/-- Concrete two-body universe whose tree needs one subdivision. -/
def u2W : Universe := { width := 4, stars := [s1W, s2W] }

/-- The tree `GenerateQuadTree` builds from `u2W`: one subdivision, `s1W` in
the SW child, `s2W` in the NE child, aggregate mass 2 at centroid `(2,2)`. -/
def t2W : QuadTree :=
  { root := Node.quad q0W (some (mkStar 2 2 2))
      (Node.base (nwSector q0W) none) (Node.base (neSector q0W) (some s2W))
      (Node.base (swSector q0W) (some s1W)) (Node.base (seSector q0W) none) }

/-- Concrete in-bounds star whose mass makes the force on `bC7` come out to
`(-5, 0)`. -/
def aC7 : Star := mkStar 2 2 (144 / G)

/-- Concrete star outside the domain (`x = 14 > 10`). -/
def bC7 : Star := mkStar 14 2 5

/-- Concrete universe with one in-bounds and one out-of-bounds body. -/
def uC7 : Universe := { width := 10, stars := [aC7, bC7] }

/-- The tree built from `uC7`: only `aC7` is inserted. -/
def tC7 : QuadTree := { root := Node.base { x := 0, y := 0, width := 10 } (some aC7) }

/-- Concrete body at rest at `(1,1)`. -/
def bC4 : Star := mkStar 1 1 1

/-- Concrete attracting body at `(3,1)` whose mass makes the net force on
`bC4` come out to exactly `(1, 0)`. -/
def sC4 : Star := mkStar 3 1 (4 / G)

/-- Concrete one-leaf tree holding `sC4`. -/
def treeC4 : QuadTree := { root := Node.base { x := 0, y := 0, width := 10 } (some sC4) }

/-- Concrete universe holding only the body at rest. -/
def uC4 : Universe := { width := 10, stars := [bC4] }

/-- The star produced from `bC4` by one `UpdateUniverse` step of size 1 on
`treeC4`: acceleration `(1,0)`, velocity `(0.5,0)`, position unchanged. -/
def resC4 : Star :=
  { position := { x := 1, y := 1 },
    velocity := { x := 0.5, y := 0 },
    acceleration := { x := 1, y := 0 },
    mass := 1, radius := 0, red := 0, green := 0, blue := 0 }

/-! Basic lemmas. -/

lemma thetaBlock_eq_zero (q : Quadrant) (st currStar : Star) (theta : ℝ) :
    thetaBlock q st currStar theta = { x := 0, y := 0 } := by
  unfold thetaBlock
  split
  · split
    · split
      · simp only [OrderedPair.mk.injEq]
        norm_num
      · rfl
    · rfl
  · rfl


lemma calculateNetForce_quad (q : Quadrant) (st? : Option Star) (nw ne sw se : Node)
    (currStar : Star) (theta : ℝ) :
    calculateNetForce (Node.quad q st? nw ne sw se) currStar theta =
      match st? with
      | none => { x := 0, y := 0 }
      | some st =>
          if st.mass = 0 then { x := 0, y := 0 }
          else
            { x := (calculateNetForce nw currStar theta).x + (calculateNetForce ne currStar theta).x
                + (calculateNetForce sw currStar theta).x + (calculateNetForce se currStar theta).x,
              y := (calculateNetForce nw currStar theta).y + (calculateNetForce ne currStar theta).y
                + (calculateNetForce sw currStar theta).y + (calculateNetForce se currStar theta).y } := by
  cases st? with
  | none => rfl
  | some st =>
      simp only [calculateNetForce, thetaBlock_eq_zero]
      split <;> simp

lemma calculateNetForce_theta_irrel (node : Node) (currStar : Star) (theta1 theta2 : ℝ) :
    calculateNetForce node currStar theta1 = calculateNetForce node currStar theta2 := by
  induction node with
  | base q st => cases st <;> rfl
  | quad q st nw ne sw se ihnw ihne ihsw ihse =>
      rw [calculateNetForce_quad, calculateNetForce_quad, ihnw, ihne, ihsw, ihse]

lemma updateAcceleration_theta_irrel (s : Star) (tree : QuadTree) (theta1 theta2 : ℝ) :
    updateAcceleration s tree theta1 = updateAcceleration s tree theta2 := by
  simp only [updateAcceleration, calculateNetForce_theta_irrel tree.root s theta1 theta2]

lemma updateUniverse_theta_irrel (u : Universe) (time : ℝ) (tree : QuadTree) (theta1 theta2 : ℝ) :
    updateUniverse u time tree theta1 = updateUniverse u time tree theta2 := by
  unfold updateUniverse
  simp only [updateAcceleration_theta_irrel _ _ theta1 theta2]

lemma runGenerations_theta_irrel (fuel : Nat) (time theta1 theta2 : ℝ) (n : Nat) (u : Universe) :
    runGenerations fuel time theta1 n u = runGenerations fuel time theta2 n u := by
  induction n generalizing u with
  | zero => rfl
  | succ n ih =>
      unfold runGenerations
      cases generateQuadTree fuel u with
      | none => rfl
      | some tree => simp only [updateUniverse_theta_irrel _ _ _ theta1 theta2, ih]

lemma copyUniverse_eq (u : Universe) : copyUniverse u = u := by
  unfold copyUniverse
  cases u with
  | mk w stars =>
      simp only [Universe.mk.injEq, true_and]
      have h : ∀ s : Star,
          ({ position := { x := s.position.x, y := s.position.y },
             velocity := { x := s.velocity.x, y := s.velocity.y },
             acceleration := { x := s.acceleration.x, y := s.acceleration.y },
             mass := s.mass, radius := s.radius,
             red := s.red, blue := s.blue, green := s.green } : Star) = s := by
        intro s
        cases s with
        | mk p v a m r rd gr bl =>
            cases p
            cases v
            cases a
            rfl
      calc stars.map _ = stars.map id := by
            exact List.map_congr_left fun s _ => h s
        _ = stars := List.map_id stars

lemma runGenerations_length (fuel : Nat) (time theta : ℝ) (n : Nat) (u : Universe)
    (l : List Universe) (h : runGenerations fuel time theta n u = some l) :
    l.length = n := by
  induction n generalizing u l with
  | zero =>
      unfold runGenerations at h
      cases h
      rfl
  | succ n ih =>
      unfold runGenerations at h
      cases hg : generateQuadTree fuel u with
      | none => rw [hg] at h; cases h
      | some tree =>
          rw [hg] at h
          simp only at h
          cases hr : runGenerations fuel time theta n (updateUniverse u time tree theta) with
          | none => rw [hr] at h; cases h
          | some rest =>
              rw [hr] at h
              cases h
              simp [ih _ _ hr]

lemma orderedPair_eq_iff (p1 p2 : OrderedPair) : p1 = p2 ↔ p1.x = p2.x ∧ p1.y = p2.y := by
  cases p1
  cases p2
  simp

lemma distance_d (p1 p2 : OrderedPair) :
    (distance p1 p2).2.2 =
      Real.sqrt ((p1.x - p2.x) * (p1.x - p2.x) + (p1.y - p2.y) * (p1.y - p2.y)) := by
  simp [distance]

lemma distance_dx (p1 p2 : OrderedPair) : (distance p1 p2).1 = p1.x - p2.x := by
  simp [distance]

lemma distance_dy (p1 p2 : OrderedPair) : (distance p1 p2).2.1 = p1.y - p2.y := by
  simp [distance]

lemma distance_d_eq_zero_iff (p1 p2 : OrderedPair) :
    (distance p1 p2).2.2 = 0 ↔ p1 = p2 := by
  rw [distance_d,
    show (p1.x - p2.x) * (p1.x - p2.x) + (p1.y - p2.y) * (p1.y - p2.y)
      = (p1.x - p2.x) ^ 2 + (p1.y - p2.y) ^ 2 by ring,
    Real.sqrt_eq_zero (by positivity),
    add_eq_zero_iff_of_nonneg (by positivity) (by positivity),
    pow_eq_zero_iff two_ne_zero, pow_eq_zero_iff two_ne_zero,
    sub_eq_zero, sub_eq_zero, orderedPair_eq_iff]

lemma distance_horizontal (p1 p2 : OrderedPair) (h : p1.y = p2.y) :
    (distance p1 p2).2.2 = |p1.x - p2.x| := by
  rw [distance_d, h, sub_self, mul_zero, add_zero,
    show (p1.x - p2.x) * (p1.x - p2.x) = (p1.x - p2.x) ^ 2 by ring,
    Real.sqrt_sq_eq_abs]

lemma computeForce_coincident (b b2 : Star) (h : b.position = b2.position) :
    computeForce b b2 = { x := 0, y := 0 } := by
  have hd : (distance b.position b2.position).2.2 = 0 := (distance_d_eq_zero_iff _ _).mpr h
  simp [computeForce, hd]

lemma calculateNetForce_coincident (node : Node) (currStar : Star) (theta : ℝ)
    (h : ∀ s ∈ leafStars node, s.position = currStar.position) :
    calculateNetForce node currStar theta = { x := 0, y := 0 } := by
  induction node with
  | base q st =>
      cases st with
      | none => rfl
      | some st =>
          have hst : st.position = currStar.position := h st (by simp [leafStars])
          have hd : (distance st.position currStar.position).2.2 = 0 :=
            (distance_d_eq_zero_iff _ _).mpr hst
          simp only [calculateNetForce, hd, ne_eq, not_true_eq_false, if_false]
          split
          · rfl
          · split
            · simp
            · rfl
  | quad q st nw ne sw se ihnw ihne ihsw ihse =>
      have hn : ∀ s ∈ leafStars nw, s.position = currStar.position :=
        fun s hs => h s (by simp [leafStars, hs])
      have he : ∀ s ∈ leafStars ne, s.position = currStar.position :=
        fun s hs => h s (by simp [leafStars, hs])
      have hs2 : ∀ s ∈ leafStars sw, s.position = currStar.position :=
        fun s hs => h s (by simp [leafStars, hs])
      have he2 : ∀ s ∈ leafStars se, s.position = currStar.position :=
        fun s hs => h s (by simp [leafStars, hs])
      rw [calculateNetForce_quad]
      cases st with
      | none => rfl
      | some a =>
          simp only
          split
          · rfl
          · rw [ihnw hn, ihne he, ihsw hs2, ihse he2]
            simp

lemma calculateNetForce_base (q : Quadrant) (st? : Option Star) (currStar : Star) (theta : ℝ) :
    calculateNetForce (Node.base q st?) currStar theta =
      match st? with
      | none => { x := 0, y := 0 }
      | some st =>
          if st.mass = 0 ∨ st = currStar then { x := 0, y := 0 }
          else computeForce st currStar := by
  cases st? with
  | none => rfl
  | some st =>
      by_cases hm : st.mass = 0
      · simp [calculateNetForce, hm]
      · by_cases he : st = currStar
        · simp [calculateNetForce, hm, he]
        · simp only [calculateNetForce, computeForce, hm, he, if_false, ne_eq,
            not_false_eq_true, if_true, or_self]
          by_cases hd : (distance st.position currStar.position).2.2 = 0
          · simp [hd]
          · simp only [hd, if_false, ne_eq, not_false_eq_true, if_true]
            rw [orderedPair_eq_iff]
            constructor
            · ring
            · ring

lemma computeForce_horizontal (b b2 : Star) (hy : b.position.y = b2.position.y)
    (hx : b.position.x ≠ b2.position.x) :
    computeForce b b2 =
      { x := (G * b.mass * b2.mass) /
            (|b.position.x - b2.position.x| * |b.position.x - b2.position.x|) *
            (b.position.x - b2.position.x) / |b.position.x - b2.position.x|,
        y := 0 } := by
  have hd : (distance b.position b2.position).2.2 = |b.position.x - b2.position.x| :=
    distance_horizontal _ _ hy
  have hne : |b.position.x - b2.position.x| ≠ 0 := by
    simp [abs_eq_zero, sub_eq_zero, hx]
  simp only [computeForce, hd, distance_dx, distance_dy, hne, if_false, hy, sub_self]
  rw [orderedPair_eq_iff]
  constructor
  · simp
  · simp

lemma updateUniverse_stars_map (u : Universe) (time : ℝ) (tree : QuadTree) (theta : ℝ) :
    (updateUniverse u time tree theta).stars = u.stars.map fun old =>
      { old with
        acceleration := updateAcceleration old tree theta,
        velocity :=
          { x := old.velocity.x +
              0.5 * ((updateAcceleration old tree theta).x + old.acceleration.x) * time,
            y := old.velocity.y +
              0.5 * ((updateAcceleration old tree theta).y + old.acceleration.y) * time },
        position :=
          { x := old.position.x + old.velocity.x * time +
              0.5 * old.acceleration.x * time * time,
            y := old.position.y + old.velocity.y * time +
              0.5 * old.acceleration.y * time * time } } := by
  unfold updateUniverse
  rw [copyUniverse_eq]
  dsimp only
  refine List.map_congr_left fun b _ => ?_
  cases b with
  | mk p v a m r rd gr bl => rfl

lemma updateUniverse_stars_length (u : Universe) (time : ℝ) (tree : QuadTree) (theta : ℝ) :
    (updateUniverse u time tree theta).stars.length = u.stars.length := by
  rw [updateUniverse_stars_map, List.length_map]

lemma abs_zero_sub_ten : |(0 : ℝ) - 10| = 10 := by
  rw [show (0 : ℝ) - 10 = -10 by norm_num, abs_neg, abs_of_nonneg (by norm_num : (0:ℝ) ≤ 10)]

lemma abs_two_sub_ten : |(2 : ℝ) - 10| = 8 := by
  rw [show (2 : ℝ) - 10 = -8 by norm_num, abs_neg, abs_of_nonneg (by norm_num : (0:ℝ) ≤ 8)]

lemma abs_one_sub_ten : |(1 : ℝ) - 10| = 9 := by
  rw [show (1 : ℝ) - 10 = -9 by norm_num, abs_neg, abs_of_nonneg (by norm_num : (0:ℝ) ≤ 9)]

lemma abs_three_sub_one : |(3 : ℝ) - 1| = 2 := by
  rw [show (3 : ℝ) - 1 = 2 by norm_num, abs_of_nonneg (by norm_num : (0:ℝ) ≤ 2)]

lemma G_ne_zero : G ≠ 0 := by
  norm_num [G]

lemma cf_s00_curr : computeForce s00C1 currC1 = { x := -(G / 100), y := 0 } := by
  rw [computeForce_horizontal s00C1 currC1 rfl (by norm_num [s00C1, currC1, mkStar])]
  simp only [s00C1, currC1, mkStar]
  rw [orderedPair_eq_iff]
  simp only [abs_zero_sub_ten]
  constructor
  · ring
  · trivial

lemma cf_s20_curr : computeForce s20C1 currC1 = { x := -(G / 64), y := 0 } := by
  rw [computeForce_horizontal s20C1 currC1 rfl (by norm_num [s20C1, currC1, mkStar])]
  simp only [s20C1, currC1, mkStar]
  rw [orderedPair_eq_iff]
  simp only [abs_two_sub_ten]
  constructor
  · ring
  · trivial

lemma cf_agg_curr : computeForce aggC1 currC1 = { x := -(G * 2 / 81), y := 0 } := by
  rw [computeForce_horizontal aggC1 currC1 rfl (by norm_num [aggC1, currC1, mkStar])]
  simp only [aggC1, currC1, mkStar]
  rw [orderedPair_eq_iff]
  simp only [abs_one_sub_ten]
  constructor
  · ring
  · trivial

lemma cf_sC4_bC4 : computeForce sC4 bC4 = { x := 1, y := 0 } := by
  rw [computeForce_horizontal sC4 bC4 rfl (by norm_num [sC4, bC4, mkStar])]
  simp only [sC4, bC4, mkStar]
  rw [orderedPair_eq_iff]
  simp only [abs_three_sub_one]
  have h4 : G * (4 / G) = 4 := by
    rw [mul_comm]
    exact div_mul_cancel₀ 4 G_ne_zero
  constructor
  · rw [mul_one, h4]
    norm_num
  · trivial

lemma cnf_empty (q : Quadrant) (currStar : Star) (theta : ℝ) :
    calculateNetForce (Node.base q none) currStar theta = { x := 0, y := 0 } := rfl

lemma cnf_leaf (q : Quadrant) (st currStar : Star) (theta : ℝ)
    (hm : st.mass ≠ 0) (hne : st ≠ currStar) :
    calculateNetForce (Node.base q (some st)) currStar theta = computeForce st currStar := by
  rw [calculateNetForce_base]
  simp [hm, hne]

lemma s00C1_ne_curr : s00C1 ≠ currC1 := by
  simp only [s00C1, currC1, mkStar, ne_eq, Star.mk.injEq, OrderedPair.mk.injEq]
  norm_num

lemma s20C1_ne_curr : s20C1 ≠ currC1 := by
  simp only [s20C1, currC1, mkStar, ne_eq, Star.mk.injEq, OrderedPair.mk.injEq]
  norm_num

lemma cnf_nodeC1 : calculateNetForce nodeC1 currC1 0.5 = { x := -(G / 100) + -(G / 64), y := 0 } := by
  rw [show nodeC1 = Node.quad qC1 (some aggC1)
    (Node.base (nwSector qC1) none) (Node.base (neSector qC1) none)
    (Node.base (swSector qC1) (some s00C1)) (Node.base (seSector qC1) (some s20C1)) from rfl]
  rw [calculateNetForce_quad]
  dsimp only
  rw [if_neg (by norm_num [aggC1, mkStar] : ¬ aggC1.mass = 0)]
  rw [cnf_empty, cnf_empty,
    cnf_leaf _ _ _ _ (by norm_num [s00C1, mkStar]) s00C1_ne_curr,
    cnf_leaf _ _ _ _ (by norm_num [s20C1, mkStar]) s20C1_ne_curr,
    cf_s00_curr, cf_s20_curr]
  rw [orderedPair_eq_iff]
  constructor
  · ring
  · ring

lemma pairSumC1_eval : pairSum [s00C1, s20C1] currC1 = { x := -(G / 100) + -(G / 64), y := 0 } := by
  simp only [pairSum, List.map, cf_s00_curr, cf_s20_curr, List.sum_cons, List.sum_nil]
  rw [orderedPair_eq_iff]
  constructor
  · ring
  · ring

lemma sC4_mass_ne : sC4.mass ≠ 0 := by
  simp only [sC4, mkStar]
  exact div_ne_zero (by norm_num) G_ne_zero

lemma sC4_ne_b : sC4 ≠ bC4 := by
  simp only [sC4, bC4, mkStar, ne_eq, Star.mk.injEq, OrderedPair.mk.injEq]
  norm_num

lemma accelC4_eval : updateAcceleration bC4 treeC4 0.5 = { x := 1, y := 0 } := by
  simp only [updateAcceleration, treeC4]
  rw [cnf_leaf _ _ _ _ sC4_mass_ne sC4_ne_b, cf_sC4_bC4]
  rw [orderedPair_eq_iff]
  constructor
  · show 1 / bC4.mass = 1
    norm_num [bC4, mkStar]
  · show 0 / bC4.mass = 0
    norm_num [bC4, mkStar]

/-! Geometry of quadrant subdivision. -/

lemma sectorAt_width (q : Quadrant) (i : Fin 4) : (sectorAt q i).width = q.width / 2 := by
  fin_cases i
  · rfl
  · rfl
  · rfl
  · rfl

lemma findQuadrant_congr (q : Quadrant) (s t : Star) (h : s.position = t.position) :
    findQuadrant q s = findQuadrant q t := by
  simp only [findQuadrant, h]

lemma inSector_child (q : Quadrant) (s : Star) (h : inSector q s.position) :
    inSector (sectorAt q (findQuadrant q s)) s.position := by
  obtain ⟨h1, h2, h3, h4⟩ := h
  simp only [findQuadrant]
  split
  next hc =>
    simp only [sectorAt, nwSector, inSector]
    refine ⟨?_, ?_, ?_, ?_⟩ <;> linarith [hc.1, hc.2]
  next hc =>
    split
    next hc2 =>
      simp only [sectorAt, neSector, inSector]
      refine ⟨?_, ?_, ?_, ?_⟩ <;> linarith [hc2.1, hc2.2]
    next hc2 =>
      split
      next hc3 =>
        simp only [sectorAt, swSector, inSector]
        refine ⟨?_, ?_, ?_, ?_⟩ <;> linarith [hc3.1, hc3.2]
      next hc3 =>
        push_neg at hc hc2 hc3
        have hxm : ¬ s.position.x < q.x + q.width / 2 := by
          intro hx
          exact absurd (hc3 hx) (not_le.mpr (hc hx))
        push_neg at hxm
        have hym : s.position.y < q.y + q.width / 2 := hc2 hxm
        simp only [sectorAt, seSector, inSector]
        refine ⟨?_, ?_, ?_, ?_⟩ <;> linarith

lemma inSector_gap_le (q : Quadrant) (p1 p2 : OrderedPair)
    (h1 : inSector q p1) (h2 : inSector q p2) :
    |p1.x - p2.x| ≤ q.width ∧ |p1.y - p2.y| ≤ q.width := by
  obtain ⟨a1, a2, a3, a4⟩ := h1
  obtain ⟨b1, b2, b3, b4⟩ := h2
  constructor
  · rw [abs_le]
    constructor
    · linarith
    · linarith
  · rw [abs_le]
    constructor
    · linarith
    · linarith

lemma posGap_pos (t s : Star) (h : t.position ≠ s.position) : 0 < posGap t s := by
  rw [ne_eq, orderedPair_eq_iff, not_and_or] at h
  rcases h with h | h
  · exact lt_max_of_lt_left (abs_pos.mpr (sub_ne_zero.mpr h))
  · exact lt_max_of_lt_right (abs_pos.mpr (sub_ne_zero.mpr h))

lemma posGap_le_width (q : Quadrant) (t s : Star)
    (ht : inSector q t.position) (hs : inSector q s.position) :
    posGap t s ≤ q.width := by
  obtain ⟨hx, hy⟩ := inSector_gap_le q t.position s.position ht hs
  exact max_le hx hy

/-! Child indexing. -/

lemma insertChild_eq (fuel : Nat) (nw ne sw se : Node) (i : Fin 4) (s : Star) :
    insertChild fuel nw ne sw se i s =
      (insertStar fuel (childOf nw ne sw se i) s).map (setChild nw ne sw se i) := by
  fin_cases i
  · rw [insertChild.eq_def]
    simp only [childOf]
    cases insertStar fuel nw s <;> simp [setChild]
  · rw [insertChild.eq_def]
    simp only [childOf]
    cases insertStar fuel ne s <;> simp [setChild]
  · rw [insertChild.eq_def]
    simp only [childOf]
    cases insertStar fuel sw s <;> simp [setChild]
  · rw [insertChild.eq_def]
    simp only [childOf]
    cases insertStar fuel se s <;> simp [setChild]

lemma childOf_setChild (nw ne sw se : Node) (i j : Fin 4) (c : Node) :
    childOf ((setChild nw ne sw se i c).1) ((setChild nw ne sw se i c).2.1)
        ((setChild nw ne sw se i c).2.2.1) ((setChild nw ne sw se i c).2.2.2) j =
      if j = i then c else childOf nw ne sw se j := by
  fin_cases i <;> fin_cases j <;> simp [setChild, childOf]

/-! Equations and fuel monotonicity of the fuelled insertion. -/

lemma insertStar_zero (node : Node) (s : Star) : insertStar 0 node s = none := by
  rw [insertStar.eq_def]

lemma insertStar_succ_empty (fuel : Nat) (q : Quadrant) (s : Star) :
    insertStar (fuel + 1) (Node.base q none) s = some (Node.base q (some s)) := by
  rw [insertStar.eq_def]

lemma insertStar_succ_leaf (fuel : Nat) (q : Quadrant) (t s : Star) :
    insertStar (fuel + 1) (Node.base q (some t)) s =
      match insertChild fuel (Node.base (nwSector q) none) (Node.base (neSector q) none)
          (Node.base (swSector q) none) (Node.base (seSector q) none) (findQuadrant q t) t with
      | none => none
      | some (nw1, ne1, sw1, se1) =>
          match insertChild fuel nw1 ne1 sw1 se1 (findQuadrant q s) s with
          | none => none
          | some (nw2, ne2, sw2, se2) => some (Node.quad q none nw2 ne2 sw2 se2) := by
  rw [insertStar.eq_def]

lemma insertStar_succ_quad (fuel : Nat) (q : Quadrant) (st : Option Star)
    (nw ne sw se : Node) (s : Star) :
    insertStar (fuel + 1) (Node.quad q st nw ne sw se) s =
      match insertChild fuel nw ne sw se (findQuadrant q s) s with
      | none => none
      | some (nw1, ne1, sw1, se1) => some (Node.quad q st nw1 ne1 sw1 se1) := by
  rw [insertStar.eq_def]

lemma insertChild_succ_mono (fuel : Nat)
    (ih : ∀ (node : Node) (s : Star) (r : Node),
      insertStar fuel node s = some r → insertStar (fuel + 1) node s = some r)
    (nw ne sw se : Node) (i : Fin 4) (s : Star) (cs : Node × Node × Node × Node)
    (h : insertChild fuel nw ne sw se i s = some cs) :
    insertChild (fuel + 1) nw ne sw se i s = some cs := by
  rw [insertChild_eq] at h ⊢
  obtain ⟨c, hc, hmap⟩ := Option.map_eq_some'.mp h
  rw [ih _ _ _ hc]
  simp [hmap]

lemma insertStar_succ_mono : ∀ (fuel : Nat) (node : Node) (s : Star) (r : Node),
    insertStar fuel node s = some r → insertStar (fuel + 1) node s = some r := by
  intro fuel
  induction fuel with
  | zero =>
      intro node s r h
      rw [insertStar_zero] at h
      cases h
  | succ fuel ih =>
      intro node s r h
      cases node with
      | base q st? =>
          cases st? with
          | none =>
              rw [insertStar_succ_empty] at h ⊢
              exact h
          | some t =>
              rw [insertStar_succ_leaf] at h
              rw [insertStar_succ_leaf]
              cases hc1 : insertChild fuel (Node.base (nwSector q) none)
                  (Node.base (neSector q) none) (Node.base (swSector q) none)
                  (Node.base (seSector q) none) (findQuadrant q t) t with
              | none =>
                  rw [hc1] at h
                  cases h
              | some cs1 =>
                  obtain ⟨nw1, ne1, sw1, se1⟩ := cs1
                  rw [hc1] at h
                  dsimp only at h
                  cases hc2 : insertChild fuel nw1 ne1 sw1 se1 (findQuadrant q s) s with
                  | none =>
                      rw [hc2] at h
                      cases h
                  | some cs2 =>
                      obtain ⟨nw2, ne2, sw2, se2⟩ := cs2
                      rw [hc2] at h
                      dsimp only at h
                      rw [insertChild_succ_mono fuel ih _ _ _ _ _ _ _ hc1]
                      dsimp only
                      rw [insertChild_succ_mono fuel ih _ _ _ _ _ _ _ hc2]
                      exact h
      | quad q st nw ne sw se =>
          rw [insertStar_succ_quad] at h
          rw [insertStar_succ_quad]
          cases hc1 : insertChild fuel nw ne sw se (findQuadrant q s) s with
          | none =>
              rw [hc1] at h
              cases h
          | some cs1 =>
              obtain ⟨nw1, ne1, sw1, se1⟩ := cs1
              rw [hc1] at h
              dsimp only at h
              rw [insertChild_succ_mono fuel ih _ _ _ _ _ _ _ hc1]
              exact h

lemma insertStar_mono (fuel fuel' : Nat) (hle : fuel ≤ fuel') (node : Node) (s : Star)
    (r : Node) (hs : insertStar fuel node s = some r) : insertStar fuel' node s = some r := by
  induction fuel', hle using Nat.le_induction with
  | base => exact hs
  | succ fuel' hle ih => exact insertStar_succ_mono fuel' node s r ih

/-! Leaf bags, well-formedness, and quadruple updates. -/

lemma leafBag_base (q : Quadrant) (st? : Option Star) :
    leafBag (Node.base q st?) = (st?.toList : Multiset Star) := rfl

lemma leafBag_quad (q : Quadrant) (st : Option Star) (a b c d : Node) :
    leafBag (Node.quad q st a b c d) = leafBag a + leafBag b + leafBag c + leafBag d := by
  simp [leafBag, leafStars]

lemma wf_base_iff (q : Quadrant) (st? : Option Star) :
    wf (Node.base q st?) ↔ ∀ s ∈ st?, inSector q s.position := Iff.rfl

lemma wf_quad_iff (q : Quadrant) (st : Option Star) (nw ne sw se : Node) :
    wf (Node.quad q st nw ne sw se) ↔
      st = none ∧ nw.sector = nwSector q ∧ ne.sector = neSector q ∧
      sw.sector = swSector q ∧ se.sector = seSector q ∧
      wf nw ∧ wf ne ∧ wf sw ∧ wf se := Iff.rfl

lemma wf_quad_forall (q : Quadrant) (st : Option Star) (nw ne sw se : Node) :
    wf (Node.quad q st nw ne sw se) ↔
      st = none ∧ (∀ j, (childOf nw ne sw se j).sector = sectorAt q j) ∧
      ∀ j, wf (childOf nw ne sw se j) := by
  rw [wf_quad_iff]
  constructor
  · rintro ⟨h0, h1, h2, h3, h4, w1, w2, w3, w4⟩
    refine ⟨h0, ?_, ?_⟩
    · intro j
      fin_cases j
      · exact h1
      · exact h2
      · exact h3
      · exact h4
    · intro j
      fin_cases j
      · exact w1
      · exact w2
      · exact w3
      · exact w4
  · rintro ⟨h0, hsec, hwf⟩
    exact ⟨h0, hsec 0, hsec 1, hsec 2, hsec 3, hwf 0, hwf 1, hwf 2, hwf 3⟩

lemma childOf_empties (q : Quadrant) (i : Fin 4) :
    childOf (Node.base (nwSector q) none) (Node.base (neSector q) none)
      (Node.base (swSector q) none) (Node.base (seSector q) none) i =
      Node.base (sectorAt q i) none := by
  fin_cases i
  · rfl
  · rfl
  · rfl
  · rfl

lemma wf_empty_base (q : Quadrant) : wf (Node.base q none) := by
  rw [wf_base_iff]
  simp

lemma setChild_sectors (q : Quadrant) (nw ne sw se : Node) (i : Fin 4) (c : Node)
    (hall : ∀ j, (childOf nw ne sw se j).sector = sectorAt q j)
    (hc : c.sector = sectorAt q i) :
    ∀ j, (childOf ((setChild nw ne sw se i c).1) ((setChild nw ne sw se i c).2.1)
      ((setChild nw ne sw se i c).2.2.1) ((setChild nw ne sw se i c).2.2.2) j).sector =
        sectorAt q j := by
  intro j
  rw [childOf_setChild]
  by_cases hji : j = i
  · rw [if_pos hji, hc, hji]
  · rw [if_neg hji]
    exact hall j

lemma setChild_wf (nw ne sw se : Node) (i : Fin 4) (c : Node)
    (hall : ∀ j, wf (childOf nw ne sw se j)) (hc : wf c) :
    ∀ j, wf (childOf ((setChild nw ne sw se i c).1) ((setChild nw ne sw se i c).2.1)
      ((setChild nw ne sw se i c).2.2.1) ((setChild nw ne sw se i c).2.2.2) j) := by
  intro j
  rw [childOf_setChild]
  by_cases hji : j = i
  · rw [if_pos hji]
    exact hc
  · rw [if_neg hji]
    exact hall j

lemma leafBag_setChild (nw ne sw se : Node) (i : Fin 4) (c : Node) (x : Star)
    (h : leafBag c = x ::ₘ leafBag (childOf nw ne sw se i)) :
    leafBag ((setChild nw ne sw se i c).1) + leafBag ((setChild nw ne sw se i c).2.1) +
      leafBag ((setChild nw ne sw se i c).2.2.1) + leafBag ((setChild nw ne sw se i c).2.2.2) =
      x ::ₘ (leafBag nw + leafBag ne + leafBag sw + leafBag se) := by
  have h' : leafBag c = {x} + leafBag (childOf nw ne sw se i) := by
    rw [Multiset.singleton_add]
    exact h
  rw [← Multiset.singleton_add]
  fin_cases i
  · simp only [setChild, childOf] at h' ⊢
    rw [h']
    abel
  · simp only [setChild, childOf] at h' ⊢
    rw [h']
    abel
  · simp only [setChild, childOf] at h' ⊢
    rw [h']
    abel
  · simp only [setChild, childOf] at h' ⊢
    rw [h']
    abel

/-- Complete specification of a successful fuelled insertion: the sector is
unchanged, the stored bodies gain exactly the inserted star, and (on
well-formed nodes, for a star inside the node's sector) well-formedness is
preserved. -/
lemma insertStar_spec : ∀ (fuel : Nat) (node : Node) (s : Star) (r : Node),
    insertStar fuel node s = some r →
    r.sector = node.sector ∧
    leafBag r = s ::ₘ leafBag node ∧
    (wf node → inSector node.sector s.position → wf r) := by
  intro fuel
  induction fuel with
  | zero =>
      intro node s r h
      rw [insertStar_zero] at h
      cases h
  | succ fuel ih =>
      intro node s r h
      cases node with
      | base q st? =>
          cases st? with
          | none =>
              rw [insertStar_succ_empty] at h
              cases h
              refine ⟨rfl, by simp [leafBag_base], ?_⟩
              intro _ hins
              rw [wf_base_iff]
              intro x hx
              cases hx
              exact hins
          | some t =>
              rw [insertStar_succ_leaf] at h
              cases hc1 : insertChild fuel (Node.base (nwSector q) none)
                  (Node.base (neSector q) none) (Node.base (swSector q) none)
                  (Node.base (seSector q) none) (findQuadrant q t) t with
              | none =>
                  rw [hc1] at h
                  cases h
              | some cs1 =>
                  rw [hc1] at h
                  dsimp only at h
                  cases hc2 : insertChild fuel cs1.1 cs1.2.1 cs1.2.2.1 cs1.2.2.2
                      (findQuadrant q s) s with
                  | none =>
                      rw [hc2] at h
                      cases h
                  | some cs2 =>
                      rw [hc2] at h
                      dsimp only at h
                      cases h
                      -- unpack the two child insertions
                      rw [insertChild_eq] at hc1 hc2
                      obtain ⟨c1, hs1, heq1⟩ := Option.map_eq_some'.mp hc1
                      obtain ⟨c2, hs2, heq2⟩ := Option.map_eq_some'.mp hc2
                      obtain ⟨s1, b1, w1⟩ := ih _ _ _ hs1
                      obtain ⟨s2, b2, w2⟩ := ih _ _ _ hs2
                      subst heq1
                      subst heq2
                      have hallsec : ∀ j, (childOf (Node.base (nwSector q) none)
                          (Node.base (neSector q) none) (Node.base (swSector q) none)
                          (Node.base (seSector q) none) j).sector = sectorAt q j := by
                        intro j
                        rw [childOf_empties]
                        rfl
                      have hallwf : ∀ j, wf (childOf (Node.base (nwSector q) none)
                          (Node.base (neSector q) none) (Node.base (swSector q) none)
                          (Node.base (seSector q) none) j) := by
                        intro j
                        rw [childOf_empties]
                        exact wf_empty_base _
                      have hsec1 : c1.sector = sectorAt q (findQuadrant q t) := by
                        rw [s1]
                        exact hallsec _
                      refine ⟨rfl, ?_, ?_⟩
                      · -- leaf bags
                        rw [leafBag_quad]
                        rw [leafBag_setChild _ _ _ _ (findQuadrant q s) c2 s b2]
                        rw [leafBag_setChild (Node.base (nwSector q) none)
                          (Node.base (neSector q) none) (Node.base (swSector q) none)
                          (Node.base (seSector q) none) (findQuadrant q t) c1 t b1]
                        simp [leafBag_base]
                      · -- well-formedness
                        intro hwf hins
                        have ht : inSector q t.position := by
                          rw [wf_base_iff] at hwf
                          exact hwf t rfl
                        have hw1 : wf c1 := w1 (hallwf _) (by
                          rw [hallsec (findQuadrant q t)]
                          exact inSector_child q t ht)
                        have hsec1all := setChild_sectors q _ _ _ _ (findQuadrant q t) c1
                          hallsec hsec1
                        have hwf1all := setChild_wf _ _ _ _ (findQuadrant q t) c1 hallwf hw1
                        have hw2 : wf c2 := w2 (hwf1all _) (by
                          rw [hsec1all (findQuadrant q s)]
                          exact inSector_child q s hins)
                        have hsec2 : c2.sector = sectorAt q (findQuadrant q s) := by
                          rw [s2, hsec1all (findQuadrant q s)]
                        rw [wf_quad_forall]
                        exact ⟨rfl,
                          setChild_sectors q _ _ _ _ (findQuadrant q s) c2 hsec1all hsec2,
                          setChild_wf _ _ _ _ (findQuadrant q s) c2 hwf1all hw2⟩
      | quad q st nw ne sw se =>
          rw [insertStar_succ_quad] at h
          cases hc1 : insertChild fuel nw ne sw se (findQuadrant q s) s with
          | none =>
              rw [hc1] at h
              cases h
          | some cs1 =>
              rw [hc1] at h
              dsimp only at h
              cases h
              rw [insertChild_eq] at hc1
              obtain ⟨c1, hs1, heq1⟩ := Option.map_eq_some'.mp hc1
              obtain ⟨s1, b1, w1⟩ := ih _ _ _ hs1
              subst heq1
              refine ⟨rfl, ?_, ?_⟩
              · rw [leafBag_quad, leafBag_setChild _ _ _ _ (findQuadrant q s) c1 s b1,
                  leafBag_quad]
              · intro hwf hins
                rw [wf_quad_forall] at hwf
                obtain ⟨hst, hallsec, hallwf⟩ := hwf
                have hw1 : wf c1 := w1 (hallwf _) (by
                  rw [hallsec (findQuadrant q s)]
                  exact inSector_child q s hins)
                have hsec1 : c1.sector = sectorAt q (findQuadrant q s) := by
                  rw [s1, hallsec (findQuadrant q s)]
                rw [wf_quad_forall]
                exact ⟨hst,
                  setChild_sectors q _ _ _ _ (findQuadrant q s) c1 hallsec hsec1,
                  setChild_wf _ _ _ _ (findQuadrant q s) c1 hallwf hw1⟩

/-- Two distinct bodies in one sector separate after finitely many
subdivisions: once `width < 2^k · posGap`, inserting the second body into a
leaf holding the first succeeds with fuel `k + 2`. -/
lemma insert_two_separate : ∀ (k : Nat) (q : Quadrant) (t s : Star),
    t.position ≠ s.position →
    inSector q t.position → inSector q s.position →
    q.width < 2 ^ k * posGap t s →
    ∃ r, insertStar (k + 2) (Node.base q (some t)) s = some r := by
  intro k
  induction k with
  | zero =>
      intro q t s hne ht hs hw
      exfalso
      have hle := posGap_le_width q t s ht hs
      simp only [pow_zero, one_mul] at hw
      linarith
  | succ k ih =>
      intro q t s hne ht hs hw
      rw [show k + 1 + 2 = (k + 2) + 1 from rfl, insertStar_succ_leaf]
      have hc1 : insertChild (k + 2) (Node.base (nwSector q) none) (Node.base (neSector q) none)
          (Node.base (swSector q) none) (Node.base (seSector q) none) (findQuadrant q t) t =
          some (setChild (Node.base (nwSector q) none) (Node.base (neSector q) none)
            (Node.base (swSector q) none) (Node.base (seSector q) none) (findQuadrant q t)
            (Node.base (sectorAt q (findQuadrant q t)) (some t))) := by
        rw [insertChild_eq, childOf_empties, show k + 2 = (k + 1) + 1 from rfl,
          insertStar_succ_empty]
        rfl
      rw [hc1]
      dsimp only
      rw [insertChild_eq, childOf_setChild]
      by_cases hij : findQuadrant q s = findQuadrant q t
      · rw [if_pos hij]
        have hst : inSector (sectorAt q (findQuadrant q t)) s.position := by
          rw [← hij]
          exact inSector_child q s hs
        have hw2 : (sectorAt q (findQuadrant q t)).width < 2 ^ k * posGap t s := by
          rw [sectorAt_width]
          rw [pow_succ] at hw
          linarith
        obtain ⟨r', hr'⟩ := ih (sectorAt q (findQuadrant q t)) t s hne
          (inSector_child q t ht) hst hw2
        rw [hr']
        exact ⟨_, rfl⟩
      · rw [if_neg hij, childOf_empties, show k + 2 = (k + 1) + 1 from rfl,
          insertStar_succ_empty]
        exact ⟨_, rfl⟩

/-- A single insertion of a body inside the node's sector, at a position
distinct from every stored body, succeeds with enough fuel. -/
lemma insertStar_exists : ∀ (node : Node) (s : Star),
    wf node → inSector node.sector s.position →
    (∀ x ∈ leafBag node, x.position ≠ s.position) →
    ∃ fuel r, insertStar fuel node s = some r := by
  intro node
  induction node with
  | base q st? =>
      intro s hwf hins hdist
      cases st? with
      | none => exact ⟨1, Node.base q (some s), insertStar_succ_empty 0 q s⟩
      | some t =>
          have hmem : t ∈ leafBag (Node.base q (some t)) := by
            simp [leafBag_base, Option.toList]
          have hne : t.position ≠ s.position := hdist t hmem
          have hgap := posGap_pos t s hne
          obtain ⟨k, hk⟩ := pow_unbounded_of_one_lt (q.width / posGap t s)
            (by norm_num : (1 : ℝ) < 2)
          have hw : q.width < 2 ^ k * posGap t s := by
            rw [div_lt_iff₀ hgap] at hk
            linarith
          obtain ⟨r, hr⟩ := insert_two_separate k q t s hne
            (by rw [wf_base_iff] at hwf; exact hwf t rfl) hins hw
          exact ⟨k + 2, r, hr⟩
  | quad q st nw ne sw se ihnw ihne ihsw ihse =>
      intro s hwf hins hdist
      rw [wf_quad_forall] at hwf
      obtain ⟨hst, hallsec, hallwf⟩ := hwf
      have hchild_ins : inSector (childOf nw ne sw se (findQuadrant q s)).sector s.position := by
        rw [hallsec]
        exact inSector_child q s hins
      have hchild_dist : ∀ x ∈ leafBag (childOf nw ne sw se (findQuadrant q s)),
          x.position ≠ s.position := by
        intro x hx
        apply hdist
        rw [leafBag_quad]
        revert hx
        generalize findQuadrant q s = j
        fin_cases j
        · intro hx
          simp only [childOf] at hx
          simp [hx]
        · intro hx
          simp only [childOf] at hx
          simp [hx]
        · intro hx
          simp only [childOf] at hx
          simp [hx]
        · intro hx
          simp only [childOf] at hx
          simp [hx]
      have hex : ∃ fuel r', insertStar fuel (childOf nw ne sw se (findQuadrant q s)) s
          = some r' := by
        have hcw := hallwf (findQuadrant q s)
        revert hchild_ins hchild_dist hcw
        generalize findQuadrant q s = j
        fin_cases j
        · intro h1 h2 h3
          exact ihnw s h3 h1 h2
        · intro h1 h2 h3
          exact ihne s h3 h1 h2
        · intro h1 h2 h3
          exact ihsw s h3 h1 h2
        · intro h1 h2 h3
          exact ihse s h3 h1 h2
      obtain ⟨fuel, r', hr'⟩ := hex
      refine ⟨fuel + 1, Node.quad q st ((setChild nw ne sw se (findQuadrant q s) r').1)
        ((setChild nw ne sw se (findQuadrant q s) r').2.1)
        ((setChild nw ne sw se (findQuadrant q s) r').2.2.1)
        ((setChild nw ne sw se (findQuadrant q s) r').2.2.2), ?_⟩
      rw [insertStar_succ_quad, insertChild_eq, hr']
      rfl

lemma insertUniverseStars_nil (fuel : Nat) (width : ℝ) (node : Node) :
    insertUniverseStars fuel width node [] = some node := rfl

lemma insertUniverseStars_cons (fuel : Nat) (width : ℝ) (node : Node) (s : Star)
    (rest : List Star) :
    insertUniverseStars fuel width node (s :: rest) =
      if isInsideUniverse s width then
        match insertStar fuel node s with
        | none => none
        | some node1 => insertUniverseStars fuel width node1 rest
      else insertUniverseStars fuel width node rest := rfl

lemma isInside_iff_inSector (s : Star) (w : ℝ) :
    isInsideUniverse s w = true ↔ inSector { x := 0, y := 0, width := w } s.position := by
  simp [isInsideUniverse, inSector, ge_iff_le]

lemma insertUniverseStars_mono (fuel fuel' : Nat) (hle : fuel ≤ fuel') :
    ∀ (stars : List Star) (node : Node) (width : ℝ) (r : Node),
    insertUniverseStars fuel width node stars = some r →
    insertUniverseStars fuel' width node stars = some r := by
  intro stars
  induction stars with
  | nil =>
      intro node width r h
      rw [insertUniverseStars_nil] at h ⊢
      exact h
  | cons s rest ih =>
      intro node width r h
      rw [insertUniverseStars_cons] at h ⊢
      by_cases hin : isInsideUniverse s width = true
      · rw [if_pos hin] at h ⊢
        cases h1 : insertStar fuel node s with
        | none =>
            rw [h1] at h
            cases h
        | some n1 =>
            rw [h1] at h
            dsimp only at h
            rw [insertStar_mono fuel fuel' hle node s n1 h1]
            exact ih n1 width r h
      · rw [if_neg hin] at h ⊢
        exact ih node width r h

lemma insertUniverseStars_spec : ∀ (stars : List Star) (node : Node) (width : ℝ)
    (fuel : Nat) (r : Node),
    insertUniverseStars fuel width node stars = some r →
    r.sector = node.sector ∧
    leafBag r = ↑(stars.filter fun s => isInsideUniverse s width) + leafBag node ∧
    (node.sector = { x := 0, y := 0, width := width } → wf node → wf r) := by
  intro stars
  induction stars with
  | nil =>
      intro node width fuel r h
      rw [insertUniverseStars_nil] at h
      cases h
      exact ⟨rfl, by simp, fun _ hw => hw⟩
  | cons s rest ih =>
      intro node width fuel r h
      rw [insertUniverseStars_cons] at h
      by_cases hin : isInsideUniverse s width = true
      · rw [if_pos hin] at h
        cases h1 : insertStar fuel node s with
        | none =>
            rw [h1] at h
            cases h
        | some n1 =>
            rw [h1] at h
            dsimp only at h
            obtain ⟨hs1, hb1, hw1⟩ := insertStar_spec fuel node s n1 h1
            obtain ⟨hs2, hb2, hw2⟩ := ih n1 width fuel r h
            refine ⟨by rw [hs2, hs1], ?_, ?_⟩
            · rw [hb2, hb1]
              simp only [List.filter_cons, hin, if_true]
              rw [← Multiset.cons_coe, Multiset.cons_add, Multiset.add_cons]
            · intro hsec hwf
              exact hw2 (by rw [hs1, hsec])
                (hw1 hwf (by rw [hsec]; exact (isInside_iff_inSector s width).mp hin))
      · rw [if_neg hin] at h
        obtain ⟨hs2, hb2, hw2⟩ := ih node width fuel r h
        refine ⟨hs2, ?_, hw2⟩
        rw [hb2]
        simp [List.filter_cons, hin]

lemma insertUniverseStars_exists : ∀ (stars : List Star) (node : Node) (width : ℝ),
    wf node → node.sector = { x := 0, y := 0, width := width } →
    (∀ s ∈ stars, ∀ x ∈ leafBag node, x.position ≠ s.position) →
    stars.Pairwise (fun a b => a.position ≠ b.position) →
    ∃ fuel r, insertUniverseStars fuel width node stars = some r := by
  intro stars
  induction stars with
  | nil => exact fun node width _ _ _ _ => ⟨0, node, rfl⟩
  | cons s rest ih =>
      intro node width hwf hsec hdist hpair
      by_cases hin : isInsideUniverse s width = true
      · have hins : inSector node.sector s.position := by
          rw [hsec]
          exact (isInside_iff_inSector s width).mp hin
        obtain ⟨fuel1, r1, hr1⟩ := insertStar_exists node s hwf hins
          (hdist s (List.mem_cons_self s rest))
        obtain ⟨hs1, hb1, hw1⟩ := insertStar_spec fuel1 node s r1 hr1
        have hwfr1 : wf r1 := hw1 hwf hins
        have hsec1 : r1.sector = { x := 0, y := 0, width := width } := by
          rw [hs1, hsec]
        have hdist1 : ∀ s' ∈ rest, ∀ x ∈ leafBag r1, x.position ≠ s'.position := by
          intro s' hs' x hx
          rw [hb1] at hx
          rcases Multiset.mem_cons.mp hx with hx1 | hx2
          · rw [hx1]
            exact (List.pairwise_cons.mp hpair).1 s' hs'
          · exact hdist s' (List.mem_cons_of_mem s hs') x hx2
        obtain ⟨fuel2, r2, hr2⟩ := ih r1 width hwfr1 hsec1 hdist1
          (List.pairwise_cons.mp hpair).2
        refine ⟨max fuel1 fuel2, r2, ?_⟩
        rw [insertUniverseStars_cons, if_pos hin,
          insertStar_mono fuel1 (max fuel1 fuel2) (le_max_left _ _) node s r1 hr1]
        exact insertUniverseStars_mono fuel2 (max fuel1 fuel2) (le_max_right _ _)
          rest r1 width r2 hr2
      · obtain ⟨fuel, r, hr⟩ := ih node width hwf hsec
          (fun s' hs' => hdist s' (List.mem_cons_of_mem s hs'))
          (List.pairwise_cons.mp hpair).2
        refine ⟨fuel, r, ?_⟩
        rw [insertUniverseStars_cons, if_neg hin]
        exact hr

lemma generateQuadTree_eq (fuel : Nat) (u : Universe) :
    generateQuadTree fuel u =
      match insertUniverseStars fuel u.width
          (Node.base { x := 0, y := 0, width := u.width } none) u.stars with
      | none => none
      | some filled => some { root := computeCenterAndMass filled } := rfl

/-- Inserting a body into a leaf holding a body at the exact same position
fails for every amount of fuel: the source recursion subdivides forever. -/
lemma insert_coincident_diverges : ∀ (fuel : Nat) (q : Quadrant) (t s : Star),
    t.position = s.position →
    insertStar fuel (Node.base q (some t)) s = none := by
  intro fuel
  induction fuel using Nat.strong_induction_on with
  | _ fuel ih =>
      intro q t s hpos
      cases fuel with
      | zero => exact insertStar_zero _ _
      | succ m =>
          rw [insertStar_succ_leaf]
          cases m with
          | zero =>
              rw [insertChild_eq, insertStar_zero]
              rfl
          | succ m2 =>
              rw [insertChild_eq, childOf_empties, insertStar_succ_empty, Option.map_some']
              dsimp only
              rw [insertChild_eq, childOf_setChild,
                if_pos (findQuadrant_congr q s t hpos.symm),
                ih (m2 + 1) (by omega) _ t s hpos]
              rfl

/-! Aggregate masses and moments. -/

lemma list_sum_nonneg_all_zero : ∀ (l : List ℝ), (∀ x ∈ l, 0 ≤ x) → l.sum = 0 →
    ∀ x ∈ l, x = 0 := by
  intro l
  induction l with
  | nil => simp
  | cons a l ih =>
      intro hnn h x hx
      simp only [List.sum_cons] at h
      have ha : 0 ≤ a := hnn a (by simp)
      have hl : 0 ≤ l.sum := List.sum_nonneg fun y hy => hnn y (by simp [hy])
      rcases List.mem_cons.mp hx with h1 | h2
      · rw [h1]
        linarith
      · exact ih (fun y hy => hnn y (by simp [hy])) (by linarith) x h2

lemma massSum_base (q : Quadrant) (st? : Option Star) :
    massSum (Node.base q st?) = match st? with
      | none => 0
      | some t => t.mass := by
  cases st? with
  | none => simp [massSum, leafStars, Option.toList]
  | some t => simp [massSum, leafStars, Option.toList]

lemma massSum_quad (q : Quadrant) (st : Option Star) (a b c d : Node) :
    massSum (Node.quad q st a b c d) = massSum a + massSum b + massSum c + massSum d := by
  simp [massSum, leafStars, List.sum_append]
  ring

lemma momentX_base (q : Quadrant) (st? : Option Star) :
    momentX (Node.base q st?) = match st? with
      | none => 0
      | some t => t.mass * t.position.x := by
  cases st? with
  | none => simp [momentX, leafStars, Option.toList]
  | some t => simp [momentX, leafStars, Option.toList]

lemma momentX_quad (q : Quadrant) (st : Option Star) (a b c d : Node) :
    momentX (Node.quad q st a b c d) = momentX a + momentX b + momentX c + momentX d := by
  simp [momentX, leafStars, List.sum_append]
  ring

lemma momentY_base (q : Quadrant) (st? : Option Star) :
    momentY (Node.base q st?) = match st? with
      | none => 0
      | some t => t.mass * t.position.y := by
  cases st? with
  | none => simp [momentY, leafStars, Option.toList]
  | some t => simp [momentY, leafStars, Option.toList]

lemma momentY_quad (q : Quadrant) (st : Option Star) (a b c d : Node) :
    momentY (Node.quad q st a b c d) = momentY a + momentY b + momentY c + momentY d := by
  simp [momentY, leafStars, List.sum_append]
  ring

lemma massSum_nonneg (n : Node) (h : ∀ s ∈ leafStars n, 0 ≤ s.mass) : 0 ≤ massSum n := by
  refine List.sum_nonneg ?_
  intro x hx
  rw [List.mem_map] at hx
  obtain ⟨s, hs, rfl⟩ := hx
  exact h s hs

lemma massSum_zero_masses (n : Node) (hnn : ∀ s ∈ leafStars n, 0 ≤ s.mass)
    (h0 : massSum n = 0) : ∀ s ∈ leafStars n, s.mass = 0 := by
  intro s hs
  exact list_sum_nonneg_all_zero ((leafStars n).map Star.mass)
    (by
      intro x hx
      rw [List.mem_map] at hx
      obtain ⟨y, hy, rfl⟩ := hx
      exact hnn y hy) h0 s.mass (List.mem_map_of_mem Star.mass hs)

lemma momentX_zero_of_masses (n : Node) (h : ∀ s ∈ leafStars n, s.mass = 0) :
    momentX n = 0 := by
  refine List.sum_eq_zero ?_
  intro x hx
  rw [List.mem_map] at hx
  obtain ⟨s, hs, rfl⟩ := hx
  rw [h s hs, zero_mul]

lemma momentY_zero_of_masses (n : Node) (h : ∀ s ∈ leafStars n, s.mass = 0) :
    momentY n = 0 := by
  refine List.sum_eq_zero ?_
  intro x hx
  rw [List.mem_map] at hx
  obtain ⟨s, hs, rfl⟩ := hx
  rw [h s hs, zero_mul]

lemma aggOK_quad_iff (q : Quadrant) (st : Option Star) (a b c d : Node) :
    aggOK (Node.quad q st a b c d) ↔
      (st = none → massSum a + massSum b + massSum c + massSum d = 0) ∧
      (∀ x, st = some x →
        x.mass = massSum a + massSum b + massSum c + massSum d ∧
        x.position.x * x.mass = momentX a + momentX b + momentX c + momentX d ∧
        x.position.y * x.mass = momentY a + momentY b + momentY c + momentY d ∧
        0 < x.mass) ∧
      aggOK a ∧ aggOK b ∧ aggOK c ∧ aggOK d := Iff.rfl

lemma leafStars_computeCenterAndMass : ∀ (n : Node),
    leafStars (computeCenterAndMass n) = leafStars n := by
  intro n
  induction n with
  | base q st => rfl
  | quad q st nw ne sw se ihnw ihne ihsw ihse =>
      simp only [computeCenterAndMass]
      split
      · simp [leafStars, ihnw, ihne, ihsw, ihse]
      · simp [leafStars, ihnw, ihne, ihsw, ihse]

lemma childMass_agg (c : Node) (hagg : aggOK c) (hnn : ∀ s ∈ leafStars c, 0 ≤ s.mass) :
    childMass c = massSum c ∧ childMomentX c = momentX c ∧ childMomentY c = momentY c := by
  cases c with
  | base q st? =>
      cases st? with
      | none =>
          simp [childMass, childMomentX, childMomentY, Node.star, massSum_base,
            momentX_base, momentY_base]
      | some t =>
          simp [childMass, childMomentX, childMomentY, Node.star, massSum_base,
            momentX_base, momentY_base]
  | quad q st? a b c d =>
      rw [aggOK_quad_iff] at hagg
      obtain ⟨hnone, hsome, _, _, _, _⟩ := hagg
      cases st? with
      | none =>
          have h0 : massSum (Node.quad q none a b c d) = 0 := by
            rw [massSum_quad]
            exact hnone rfl
          have hz := massSum_zero_masses _ hnn h0
          simp only [childMass, childMomentX, childMomentY, Node.star]
          exact ⟨h0.symm, (momentX_zero_of_masses _ hz).symm,
            (momentY_zero_of_masses _ hz).symm⟩
      | some x =>
          obtain ⟨hm, hx, hy, _⟩ := hsome x rfl
          simp only [childMass, childMomentX, childMomentY, Node.star]
          refine ⟨by rw [massSum_quad]; exact hm, ?_, ?_⟩
          · rw [momentX_quad, ← hx]
            ring
          · rw [momentY_quad, ← hy]
            ring

/-- `ComputeCenterAndMass` establishes the aggregation invariant on every
well-formed tree whose leaf bodies have nonnegative masses. -/
lemma computeCenterAndMass_aggOK : ∀ (n : Node), wf n →
    (∀ s ∈ leafStars n, 0 ≤ s.mass) → aggOK (computeCenterAndMass n) := by
  intro n
  induction n with
  | base q st =>
      intro _ _
      trivial
  | quad q st nw ne sw se ihnw ihne ihsw ihse =>
      intro hwf hnn
      rw [wf_quad_iff] at hwf
      obtain ⟨hst, _, _, _, _, wnw, wne, wsw, wse⟩ := hwf
      subst hst
      have hnnw : ∀ s ∈ leafStars nw, 0 ≤ s.mass := fun s hs => hnn s (by simp [leafStars, hs])
      have hnne : ∀ s ∈ leafStars ne, 0 ≤ s.mass := fun s hs => hnn s (by simp [leafStars, hs])
      have hnns : ∀ s ∈ leafStars sw, 0 ≤ s.mass := fun s hs => hnn s (by simp [leafStars, hs])
      have hnnse : ∀ s ∈ leafStars se, 0 ≤ s.mass := fun s hs => hnn s (by simp [leafStars, hs])
      have anw := ihnw wnw hnnw
      have ane := ihne wne hnne
      have asw := ihsw wsw hnns
      have ase := ihse wse hnnse
      have hnnw1 : ∀ s ∈ leafStars (computeCenterAndMass nw), 0 ≤ s.mass := by
        rw [leafStars_computeCenterAndMass]
        exact hnnw
      have hnne1 : ∀ s ∈ leafStars (computeCenterAndMass ne), 0 ≤ s.mass := by
        rw [leafStars_computeCenterAndMass]
        exact hnne
      have hnns1 : ∀ s ∈ leafStars (computeCenterAndMass sw), 0 ≤ s.mass := by
        rw [leafStars_computeCenterAndMass]
        exact hnns
      have hnnse1 : ∀ s ∈ leafStars (computeCenterAndMass se), 0 ≤ s.mass := by
        rw [leafStars_computeCenterAndMass]
        exact hnnse
      obtain ⟨cmnw, cxnw, cynw⟩ := childMass_agg _ anw hnnw1
      obtain ⟨cmne, cxne, cyne⟩ := childMass_agg _ ane hnne1
      obtain ⟨cmsw, cxsw, cysw⟩ := childMass_agg _ asw hnns1
      obtain ⟨cmse, cxse, cyse⟩ := childMass_agg _ ase hnnse1
      simp only [computeCenterAndMass]
      split
      next htot =>
        rw [aggOK_quad_iff]
        refine ⟨by simp, ?_, anw, ane, asw, ase⟩
        intro x hx
        rw [Option.some.injEq] at hx
        subst hx
        dsimp only
        simp only [cmnw, cxnw, cynw, cmne, cxne, cyne, cmsw, cxsw, cysw, cmse, cxse,
          cyse] at htot ⊢
        have htne : massSum (computeCenterAndMass nw) + massSum (computeCenterAndMass ne) +
            massSum (computeCenterAndMass sw) + massSum (computeCenterAndMass se) ≠ 0 :=
          ne_of_gt htot
        refine ⟨by trivial, ?_, ?_, htot⟩
        · rw [div_mul_cancel₀ _ htne]
        · rw [div_mul_cancel₀ _ htne]
      next htot =>
        rw [aggOK_quad_iff]
        refine ⟨?_, ?_, anw, ane, asw, ase⟩
        · intro _
          rw [cmnw, cmne, cmsw, cmse] at htot
          have h1 := massSum_nonneg _ hnnw1
          have h2 := massSum_nonneg _ hnne1
          have h3 := massSum_nonneg _ hnns1
          have h4 := massSum_nonneg _ hnnse1
          push_neg at htot
          linarith
        · intro x hx
          cases hx

/-! The traversal computes the exact pairwise sum. -/

lemma pairSum_nil (currStar : Star) : pairSum [] currStar = { x := 0, y := 0 } := by
  simp [pairSum]

lemma pairSum_singleton (s currStar : Star) :
    pairSum [s] currStar = computeForce s currStar := by
  simp [pairSum]

lemma pairSum_append (l1 l2 : List Star) (currStar : Star) :
    pairSum (l1 ++ l2) currStar =
      { x := (pairSum l1 currStar).x + (pairSum l2 currStar).x,
        y := (pairSum l1 currStar).y + (pairSum l2 currStar).y } := by
  simp [pairSum]

lemma computeForce_mass_zero (b b2 : Star) (h : b.mass = 0) :
    computeForce b b2 = { x := 0, y := 0 } := by
  simp only [computeForce, h]
  split
  · rfl
  · simp

lemma pairSum_masses_zero (l : List Star) (currStar : Star) (h : ∀ s ∈ l, s.mass = 0) :
    pairSum l currStar = { x := 0, y := 0 } := by
  simp only [pairSum, OrderedPair.mk.injEq]
  constructor
  · refine List.sum_eq_zero ?_
    intro x hx
    rw [List.mem_map] at hx
    obtain ⟨s, hs, rfl⟩ := hx
    rw [computeForce_mass_zero s currStar (h s hs)]
  · refine List.sum_eq_zero ?_
    intro x hx
    rw [List.mem_map] at hx
    obtain ⟨s, hs, rfl⟩ := hx
    rw [computeForce_mass_zero s currStar (h s hs)]

lemma calculateNetForce_pairSum : ∀ (n : Node) (currStar : Star) (theta : ℝ),
    aggOK n → (∀ s ∈ leafStars n, 0 ≤ s.mass) →
    calculateNetForce n currStar theta = pairSum (leafStars n) currStar := by
  intro n
  induction n with
  | base q st? =>
      intro curr theta _ hnn
      cases st? with
      | none => rw [cnf_empty, show leafStars (Node.base q none) = [] from rfl, pairSum_nil]
      | some st =>
          rw [calculateNetForce_base,
            show leafStars (Node.base q (some st)) = [st] from rfl, pairSum_singleton]
          dsimp only
          by_cases hm : st.mass = 0
          · rw [if_pos (Or.inl hm), computeForce_mass_zero st curr hm]
          · by_cases he : st = curr
            · rw [if_pos (Or.inr he), computeForce_coincident st curr (by rw [he])]
            · rw [if_neg (by simp [hm, he])]
  | quad q st? a b c d iha ihb ihc ihd =>
      intro curr theta hagg hnn
      rw [aggOK_quad_iff] at hagg
      obtain ⟨hnone, hsome, aga, agb, agc, agd⟩ := hagg
      have hnna : ∀ s ∈ leafStars a, 0 ≤ s.mass := fun s hs => hnn s (by simp [leafStars, hs])
      have hnnb : ∀ s ∈ leafStars b, 0 ≤ s.mass := fun s hs => hnn s (by simp [leafStars, hs])
      have hnnc : ∀ s ∈ leafStars c, 0 ≤ s.mass := fun s hs => hnn s (by simp [leafStars, hs])
      have hnnd : ∀ s ∈ leafStars d, 0 ≤ s.mass := fun s hs => hnn s (by simp [leafStars, hs])
      rw [calculateNetForce_quad]
      cases st? with
      | none =>
          have h0 : massSum (Node.quad q none a b c d) = 0 := by
            rw [massSum_quad]
            exact hnone rfl
          rw [pairSum_masses_zero _ curr (massSum_zero_masses _ hnn h0)]
      | some ag =>
          obtain ⟨hmass, hx, hy, hpos⟩ := hsome ag rfl
          dsimp only
          split
          next hmz => exact absurd hmz (ne_of_gt hpos)
          next _ =>
            rw [iha curr theta aga hnna, ihb curr theta agb hnnb, ihc curr theta agc hnnc,
              ihd curr theta agd hnnd]
            rw [show leafStars (Node.quad q (some ag) a b c d) =
              leafStars a ++ leafStars b ++ leafStars c ++ leafStars d from rfl]
            rw [pairSum_append, pairSum_append, pairSum_append]

/-! Nodes of a tree. -/

lemma aggOK_subNodes : ∀ (n : Node), aggOK n → ∀ m ∈ subNodes n, aggOK m := by
  intro n
  induction n with
  | base q st =>
      intro h m hm
      simp only [subNodes, List.mem_singleton] at hm
      rw [hm]
      trivial
  | quad q st a b c d iha ihb ihc ihd =>
      intro h m hm
      obtain ⟨_, _, ha, hb, hc, hd⟩ := (aggOK_quad_iff q st a b c d).mp h
      simp only [subNodes, List.mem_cons, List.mem_append] at hm
      rcases hm with hm | (((hm | hm) | hm) | hm)
      · rw [hm]
        exact h
      · exact iha ha m hm
      · exact ihb hb m hm
      · exact ihc hc m hm
      · exact ihd hd m hm

lemma leafStars_subNodes_subset : ∀ (n m : Node), m ∈ subNodes n →
    ∀ s ∈ leafStars m, s ∈ leafStars n := by
  intro n
  induction n with
  | base q st =>
      intro m hm s hs
      simp only [subNodes, List.mem_singleton] at hm
      rw [hm] at hs
      exact hs
  | quad q st a b c d iha ihb ihc ihd =>
      intro m hm s hs
      simp only [subNodes, List.mem_cons, List.mem_append] at hm
      rcases hm with hm | (((hm | hm) | hm) | hm)
      · rw [hm] at hs
        exact hs
      · have := iha m hm s hs
        simp [leafStars, this]
      · have := ihb m hm s hs
        simp [leafStars, this]
      · have := ihc m hm s hs
        simp [leafStars, this]
      · have := ihd m hm s hs
        simp [leafStars, this]

lemma pairSum_perm (l1 l2 : List Star) (h : l1.Perm l2) (currStar : Star) :
    pairSum l1 currStar = pairSum l2 currStar := by
  simp only [pairSum]
  rw [(h.map fun s => (computeForce s currStar).x).sum_eq,
    (h.map fun s => (computeForce s currStar).y).sum_eq]

/-- Everything a successful `GenerateQuadTree` run guarantees: the leaf
bodies are exactly the in-bounds stars, the aggregation invariant holds, and
leaf masses inherit nonnegativity. -/
lemma generateQuadTree_spec (fuel : Nat) (u : Universe) (t : QuadTree)
    (h : generateQuadTree fuel u = some t)
    (hm : ∀ s ∈ u.stars, 0 ≤ s.mass) :
    (leafStars t.root).Perm (u.stars.filter fun s => isInsideUniverse s u.width) ∧
    aggOK t.root ∧
    (∀ s ∈ leafStars t.root, 0 ≤ s.mass) := by
  rw [generateQuadTree_eq] at h
  cases hr : insertUniverseStars fuel u.width
      (Node.base { x := 0, y := 0, width := u.width } none) u.stars with
  | none =>
      rw [hr] at h
      cases h
  | some filled =>
      rw [hr] at h
      dsimp only at h
      cases h
      obtain ⟨hsec, hbag, hwf⟩ := insertUniverseStars_spec u.stars _ u.width fuel filled hr
      have hwff : wf filled := hwf rfl (wf_empty_base _)
      have hbag2 : leafBag filled = ↑(u.stars.filter fun s => isInsideUniverse s u.width) := by
        rw [hbag, leafBag_base]
        simp [Option.toList]
      have hperm : (leafStars filled).Perm
          (u.stars.filter fun s => isInsideUniverse s u.width) :=
        Multiset.coe_eq_coe.mp hbag2
      have hmasses : ∀ s ∈ leafStars filled, 0 ≤ s.mass := by
        intro s hs
        exact hm s (List.mem_of_mem_filter (hperm.subset hs))
      refine ⟨?_, computeCenterAndMass_aggOK filled hwff hmasses, ?_⟩
      · show (leafStars (computeCenterAndMass filled)).Perm _
        rw [leafStars_computeCenterAndMass]
        exact hperm
      · show ∀ s ∈ leafStars (computeCenterAndMass filled), 0 ≤ s.mass
        rw [leafStars_computeCenterAndMass]
        exact hmasses

/-! Concrete tree evaluations for the witnesses. -/

lemma hin_aC7 : isInsideUniverse aC7 10 = true := by
  simp only [isInsideUniverse, aC7, mkStar, decide_eq_true_eq, ge_iff_le]
  norm_num

lemma hout_bC7 : isInsideUniverse bC7 10 = false := by
  simp only [isInsideUniverse, bC7, mkStar, decide_eq_false_iff_not, ge_iff_le]
  norm_num

lemma gen_uC7_eq : generateQuadTree 1 uC7 = some tC7 := by
  rw [generateQuadTree_eq]
  show (match insertUniverseStars 1 (10 : ℝ)
      (Node.base { x := 0, y := 0, width := (10 : ℝ) } none) [aC7, bC7] with
    | none => none
    | some filled => some { root := computeCenterAndMass filled }) = some tC7
  rw [insertUniverseStars_cons, if_pos hin_aC7, insertStar_succ_empty]
  dsimp only
  rw [insertUniverseStars_cons, if_neg (by rw [hout_bC7]; simp), insertUniverseStars_nil]
  rfl

lemma abs_two_sub_fourteen : |(2 : ℝ) - 14| = 12 := by
  rw [show (2 : ℝ) - 14 = -12 by norm_num, abs_neg,
    abs_of_nonneg (by norm_num : (0:ℝ) ≤ 12)]

lemma aC7_mass_ne : aC7.mass ≠ 0 := by
  simp only [aC7, mkStar]
  exact div_ne_zero (by norm_num) G_ne_zero

lemma aC7_ne_b : aC7 ≠ bC7 := by
  simp only [aC7, bC7, mkStar, ne_eq, Star.mk.injEq, OrderedPair.mk.injEq]
  norm_num

lemma cf_aC7_bC7 : computeForce aC7 bC7 = { x := -5, y := 0 } := by
  rw [computeForce_horizontal aC7 bC7 rfl (by norm_num [aC7, bC7, mkStar])]
  simp only [aC7, bC7, mkStar]
  rw [orderedPair_eq_iff]
  simp only [abs_two_sub_fourteen]
  have h144 : G * (144 / G) = 144 := by
    rw [mul_comm]
    exact div_mul_cancel₀ 144 G_ne_zero
  constructor
  · rw [show G * (144 / G) * 5 = G * (144 / G) * 5 from rfl]
    rw [show (G * (144 / G) * 5) / (12 * 12) * ((2:ℝ) - 14) / 12
      = (G * (144 / G)) * (5 / (12 * 12) * ((2:ℝ) - 14) / 12) by ring, h144]
    norm_num
  · trivial

lemma accelC7_eval : updateAcceleration bC7 tC7 0.5 = { x := -1, y := 0 } := by
  simp only [updateAcceleration, tC7]
  rw [cnf_leaf _ _ _ _ aC7_mass_ne aC7_ne_b, cf_aC7_bC7]
  rw [orderedPair_eq_iff]
  constructor
  · show (-5 : ℝ) / bC7.mass = -1
    norm_num [bC7, mkStar]
  · show (0 : ℝ) / bC7.mass = 0
    norm_num [bC7, mkStar]

lemma hin_s1W : isInsideUniverse s1W 4 = true := by
  simp only [isInsideUniverse, s1W, mkStar, decide_eq_true_eq, ge_iff_le]
  norm_num

lemma hin_s2W : isInsideUniverse s2W 4 = true := by
  simp only [isInsideUniverse, s2W, mkStar, decide_eq_true_eq, ge_iff_le]
  norm_num

lemma fq_s1W : findQuadrant q0W s1W = 2 := by
  simp only [findQuadrant, q0W, s1W, mkStar]
  norm_num

lemma fq_s2W : findQuadrant q0W s2W = 1 := by
  simp only [findQuadrant, q0W, s2W, mkStar]
  norm_num

lemma ins_s2W : insertStar (1 + 1) (Node.base q0W (some s1W)) s2W =
    some (Node.quad q0W none (Node.base (nwSector q0W) none)
      (Node.base (neSector q0W) (some s2W)) (Node.base (swSector q0W) (some s1W))
      (Node.base (seSector q0W) none)) := by
  rw [insertStar_succ_leaf, fq_s1W, fq_s2W, insertChild_eq]
  dsimp only [childOf]
  rw [show (1 : Nat) = 0 + 1 from rfl, insertStar_succ_empty, Option.map_some']
  dsimp only [setChild]
  rw [insertChild_eq]
  dsimp only [childOf]
  rw [insertStar_succ_empty, Option.map_some']
  dsimp only [setChild]

lemma ccm_u2W : computeCenterAndMass (Node.quad q0W none (Node.base (nwSector q0W) none)
    (Node.base (neSector q0W) (some s2W)) (Node.base (swSector q0W) (some s1W))
    (Node.base (seSector q0W) none)) = t2W.root := by
  simp only [computeCenterAndMass, childMass, childMomentX, childMomentY, Node.star,
    s1W, s2W, mkStar]
  rw [if_pos (by norm_num)]
  simp only [t2W, q0W, s1W, s2W, mkStar, Node.quad.injEq, Option.some.injEq,
    Star.mk.injEq, OrderedPair.mk.injEq]
  norm_num

lemma gen_u2W_eq : generateQuadTree 2 u2W = some t2W := by
  rw [generateQuadTree_eq]
  show (match insertUniverseStars (1 + 1) (4 : ℝ) (Node.base q0W none) [s1W, s2W] with
    | none => none
    | some filled => some { root := computeCenterAndMass filled }) = some t2W
  rw [insertUniverseStars_cons, if_pos hin_s1W, insertStar_succ_empty]
  dsimp only
  rw [insertUniverseStars_cons, if_pos hin_s2W, ins_s2W]
  dsimp only
  rw [insertUniverseStars_nil]
  dsimp only
  rw [ccm_u2W]

/-! Claim theorems C10, C2, C3. -/

/-- C10: for every quadtree node, target star, and any two opening-angle
thresholds, `CalculateNetForce` returns the same net force vector (the far
branch only adds `0.0` and the traversal still recurses), so θ has no effect
on the computed forces nor on any snapshot produced by `BarnesHut`. -/
theorem c10_theta_noninterference :
    (∀ (node : Node) (currStar : Star) (theta1 theta2 : ℝ),
        calculateNetForce node currStar theta1 = calculateNetForce node currStar theta2) ∧
    (∀ (fuel : Nat) (u : Universe) (numGens : Nat) (time theta1 theta2 : ℝ),
        barnesHut fuel u numGens time theta1 = barnesHut fuel u numGens time theta2) := by
  refine ⟨calculateNetForce_theta_irrel, ?_⟩
  intro fuel u numGens time theta1 theta2
  simp only [barnesHut]
  rw [runGenerations_theta_irrel fuel time theta1 theta2]

/-- C2: whenever `BarnesHut` returns (in the fuelled model: whenever every
tree build terminates), it returns exactly `numGens + 1` snapshots, the first
being the deep copy of the input universe, which is value-equal to it. -/
theorem c2_barnesHut_snapshot_count (fuel : Nat) (u : Universe) (numGens : Nat)
    (time theta : ℝ) (l : List Universe)
    (h : barnesHut fuel u numGens time theta = some l) :
    l.length = numGens + 1 ∧ l.head? = some (copyUniverse u) ∧ copyUniverse u = u := by
  simp only [barnesHut] at h
  cases hr : runGenerations fuel time theta numGens (copyUniverse u) with
  | none =>
      rw [hr] at h
      cases h
  | some rest =>
      rw [hr] at h
      cases h
      refine ⟨?_, rfl, copyUniverse_eq u⟩
      simp [runGenerations_length fuel time theta numGens _ rest hr]

/-- Witness for C2 at a concrete universe and `numGens = 0`. -/
theorem c2_witness :
    barnesHut 0 uC2 0 0 0 = some [copyUniverse uC2] ∧
    ([copyUniverse uC2].length = 0 + 1 ∧
      [copyUniverse uC2].head? = some (copyUniverse uC2) ∧ copyUniverse uC2 = uC2) :=
  ⟨rfl, c2_barnesHut_snapshot_count 0 uC2 0 0 0 [copyUniverse uC2] rfl⟩

/-- C3: one step of `UpdateUniverse` maps every star to the star whose
acceleration is recomputed from the tree at the star's pre-step state, whose
velocity is old velocity + 0.5·(new acceleration + old acceleration)·Δt, and
whose position is old position + old velocity·Δt + 0.5·old acceleration·Δt²
(previous step's velocity and acceleration, not the updated ones). -/
theorem c3_updateUniverse_integration_order (u : Universe) (time : ℝ) (tree : QuadTree) (theta : ℝ) :
    (updateUniverse u time tree theta).stars = u.stars.map fun old =>
      { old with
        acceleration := updateAcceleration old tree theta,
        velocity :=
          { x := old.velocity.x +
              0.5 * ((updateAcceleration old tree theta).x + old.acceleration.x) * time,
            y := old.velocity.y +
              0.5 * ((updateAcceleration old tree theta).y + old.acceleration.y) * time },
        position :=
          { x := old.position.x + old.velocity.x * time +
              0.5 * old.acceleration.x * time * time,
            y := old.position.y + old.velocity.y * time +
              0.5 * old.acceleration.y * time * time } } := by
  unfold updateUniverse
  rw [copyUniverse_eq]
  dsimp only
  refine List.map_congr_left fun b _ => ?_
  cases b with
  | mk p v a m r rd gr bl => rfl

/-- C8: force computation never divides by zero — a coincident pair
contributes the zero force vector, both in `ComputeForce` and for every tree
whose leaf bodies all coincide with the target in `CalculateNetForce` (the
`d != 0` guards make the division branches unreachable). -/
theorem c8_no_division_by_zero :
    (∀ b b2 : Star, b.position = b2.position → computeForce b b2 = { x := 0, y := 0 }) ∧
    (∀ (node : Node) (currStar : Star) (theta : ℝ),
        (∀ s ∈ leafStars node, s.position = currStar.position) →
        calculateNetForce node currStar theta = { x := 0, y := 0 }) :=
  ⟨computeForce_coincident, calculateNetForce_coincident⟩

/-- Witness for C8 at concrete coincident stars. -/
theorem c8_witness :
    (sC8a.position = sC8b.position ∧ computeForce sC8a sC8b = { x := 0, y := 0 }) ∧
    ((∀ s ∈ leafStars nodeC8, s.position = sC8b.position) ∧
      calculateNetForce nodeC8 sC8b 0.5 = { x := 0, y := 0 }) := by
  have h1 : sC8a.position = sC8b.position := rfl
  have h2 : ∀ s ∈ leafStars nodeC8, s.position = sC8b.position := by
    simp [nodeC8, leafStars, sC8a, sC8b, mkStar]
  exact ⟨⟨h1, c8_no_division_by_zero.1 sC8a sC8b h1⟩,
    ⟨h2, c8_no_division_by_zero.2 nodeC8 sC8b 0.5 h2⟩⟩

/-- C1 (code-bug exhibit): on a concrete internal node whose opening-angle
test passes (`width / d = 2/9 < θ = 0.5`), `CalculateNetForce` still returns
the exact recursive pairwise sum of the two leaf bodies, which differs from
the single-body force of the node's aggregate; the far branch only adds `0.0`
and never stops the recursion, contradicting the documented Barnes-Hut
approximation. -/
theorem c1_far_node_recursion_bug :
    qC1.width / (distance aggC1.position currC1.position).2.2 < 0.5 ∧
    calculateNetForce nodeC1 currC1 0.5 = pairSum [s00C1, s20C1] currC1 ∧
    pairSum [s00C1, s20C1] currC1 ≠ computeForce aggC1 currC1 := by
  refine ⟨?_, ?_, ?_⟩
  · rw [distance_horizontal aggC1.position currC1.position rfl]
    simp only [aggC1, currC1, mkStar, qC1]
    rw [abs_one_sub_ten]
    norm_num
  · rw [cnf_nodeC1, pairSumC1_eval]
  · rw [pairSumC1_eval, cf_agg_curr]
    simp only [ne_eq, orderedPair_eq_iff, not_and]
    intro hx
    exfalso
    rw [G] at hx
    norm_num at hx

/-- C4 counterexample: `bC4` has zero prior velocity and acceleration, its
newly computed acceleration is the nonzero `(1, 0)`, yet one step of size 1
leaves its position unchanged (the position update uses the previous step's
velocity and acceleration), instead of displacing it by `0.5·a·Δt²` as the
claim states. -/
theorem c4_counterexample :
    bC4.velocity = { x := 0, y := 0 } ∧
    bC4.acceleration = { x := 0, y := 0 } ∧
    updateAcceleration bC4 treeC4 0.5 = { x := 1, y := 0 } ∧
    (updateUniverse uC4 1 treeC4 0.5).stars = [resC4] ∧
    resC4.position = bC4.position ∧
    resC4.position.x ≠
      bC4.position.x + 0.5 * (updateAcceleration bC4 treeC4 0.5).x * (1 * 1) := by
  refine ⟨rfl, rfl, accelC4_eval, ?_, rfl, ?_⟩
  · rw [updateUniverse_stars_map]
    simp only [uC4, List.map]
    rw [List.cons.injEq]
    refine ⟨?_, rfl⟩
    rw [accelC4_eval]
    simp only [bC4, resC4, mkStar, Star.mk.injEq, OrderedPair.mk.injEq]
    norm_num
  · rw [accelC4_eval]
    simp only [bC4, resC4, mkStar]
    norm_num

/-- C4 amended: a body with zero prior velocity and acceleration and nonzero
newly computed acceleration `a` gets, after one step of size Δt, velocity
`0.5·a·Δt` and an unchanged position (zero displacement, since the position
update uses the previous step's velocity and acceleration). -/
theorem c4_amended_step_from_rest (u : Universe) (time : ℝ) (tree : QuadTree) (theta : ℝ)
    (i : Nat) (h : i < u.stars.length)
    (hv : (u.stars[i]).velocity = { x := 0, y := 0 })
    (ha : (u.stars[i]).acceleration = { x := 0, y := 0 })
    (hnz : updateAcceleration u.stars[i] tree theta ≠ { x := 0, y := 0 }) :
    ∃ h2 : i < (updateUniverse u time tree theta).stars.length,
      ((updateUniverse u time tree theta).stars[i]).velocity =
        { x := 0.5 * (updateAcceleration u.stars[i] tree theta).x * time,
          y := 0.5 * (updateAcceleration u.stars[i] tree theta).y * time } ∧
      ((updateUniverse u time tree theta).stars[i]).position = u.stars[i].position := by
  have h2 : i < (updateUniverse u time tree theta).stars.length := by
    rw [updateUniverse_stars_length]
    exact h
  refine ⟨h2, ?_, ?_⟩
  · simp only [updateUniverse_stars_map, List.getElem_map, orderedPair_eq_iff, hv, ha]
    constructor
    · ring
    · ring
  · simp only [updateUniverse_stars_map, List.getElem_map, orderedPair_eq_iff, hv, ha]
    constructor
    · ring
    · ring

/-- Witness for the amended C4 at the concrete body at rest `bC4`. -/
theorem c4_amended_witness :
    ∃ h : 0 < uC4.stars.length,
      (uC4.stars[0]).velocity = { x := 0, y := 0 } ∧
      (uC4.stars[0]).acceleration = { x := 0, y := 0 } ∧
      updateAcceleration uC4.stars[0] treeC4 0.5 ≠ { x := 0, y := 0 } ∧
      ∃ h2 : 0 < (updateUniverse uC4 1 treeC4 0.5).stars.length,
        ((updateUniverse uC4 1 treeC4 0.5).stars[0]).velocity =
          { x := (0.5 : ℝ) * (updateAcceleration uC4.stars[0] treeC4 0.5).x * 1,
            y := (0.5 : ℝ) * (updateAcceleration uC4.stars[0] treeC4 0.5).y * 1 } ∧
        ((updateUniverse uC4 1 treeC4 0.5).stars[0]).position = uC4.stars[0].position := by
  have h : 0 < uC4.stars.length := by
    simp [uC4]
  have hb : uC4.stars[0] = bC4 := rfl
  have hv : (uC4.stars[0]).velocity = { x := 0, y := 0 } := by
    rw [hb]
    rfl
  have ha : (uC4.stars[0]).acceleration = { x := 0, y := 0 } := by
    rw [hb]
    rfl
  have hnz : updateAcceleration uC4.stars[0] treeC4 0.5 ≠ { x := 0, y := 0 } := by
    rw [hb, accelC4_eval]
    simp only [ne_eq, orderedPair_eq_iff, not_and]
    intro hx
    exact absurd hx one_ne_zero
  exact ⟨h, hv, ha, hnz, c4_amended_step_from_rest uC4 1 treeC4 0.5 0 h hv ha hnz⟩

/-- C9: tree construction terminates for every list of bodies at pairwise
distinct positions (some fuel suffices), and for two bodies at the exact same
position (both inside the domain) the insertion recursion never terminates:
`GenerateQuadTree` fails for every amount of fuel, there being no
recursion-depth guard in the source. -/
theorem c9_insertion_termination :
    (∀ (w : ℝ) (stars : List Star),
        stars.Pairwise (fun a b => a.position ≠ b.position) →
        ∃ fuel t, generateQuadTree fuel { width := w, stars := stars } = some t) ∧
    (∀ (fuel : Nat) (w : ℝ) (s1 s2 : Star),
        s1.position = s2.position →
        isInsideUniverse s1 w = true → isInsideUniverse s2 w = true →
        generateQuadTree fuel { width := w, stars := [s1, s2] } = none) := by
  constructor
  · intro w stars hpair
    obtain ⟨fuel, r, hr⟩ := insertUniverseStars_exists stars
      (Node.base { x := 0, y := 0, width := w } none) w (wf_empty_base _) rfl
      (by
        intro s _ x hx
        simp [leafBag_base] at hx) hpair
    refine ⟨fuel, { root := computeCenterAndMass r }, ?_⟩
    rw [generateQuadTree_eq]
    dsimp only
    rw [hr]
  · intro fuel w s1 s2 hpos h1 h2
    rw [generateQuadTree_eq]
    dsimp only
    cases fuel with
    | zero =>
        rw [insertUniverseStars_cons, if_pos h1, insertStar_zero]
    | succ m =>
        rw [insertUniverseStars_cons, if_pos h1, insertStar_succ_empty]
        dsimp only
        rw [insertUniverseStars_cons, if_pos h2,
          insert_coincident_diverges (m + 1) _ s1 s2 hpos]

/-- Witness for C9: a concrete distinct pair succeeds, and a concrete
coincident pair fails at fuel 5. -/
theorem c9_witness :
    ([d1C9, d2C9].Pairwise (fun a b => a.position ≠ b.position) ∧
      ∃ fuel t, generateQuadTree fuel { width := 10, stars := [d1C9, d2C9] } = some t) ∧
    (sC9a.position = sC9b.position ∧ isInsideUniverse sC9a 10 = true ∧
      isInsideUniverse sC9b 10 = true ∧
      generateQuadTree 5 { width := 10, stars := [sC9a, sC9b] } = none) := by
  have hpair : [d1C9, d2C9].Pairwise (fun a b => a.position ≠ b.position) := by
    refine List.Pairwise.cons ?_ (List.pairwise_singleton _ _)
    intro b hb
    rw [List.mem_singleton] at hb
    subst hb
    simp only [d1C9, d2C9, mkStar, ne_eq, OrderedPair.mk.injEq]
    norm_num
  have hin1 : isInsideUniverse sC9a 10 = true := by
    simp only [isInsideUniverse, sC9a, mkStar, decide_eq_true_eq, ge_iff_le]
    norm_num
  have hin2 : isInsideUniverse sC9b 10 = true := by
    simp only [isInsideUniverse, sC9b, mkStar, decide_eq_true_eq, ge_iff_le]
    norm_num
  exact ⟨⟨hpair, c9_insertion_termination.1 10 [d1C9, d2C9] hpair⟩,
    rfl, hin1, hin2, c9_insertion_termination.2 5 10 sC9a sC9b rfl hin1 hin2⟩

/-- C5: after tree construction, every internal node either has no bodies
beneath it (and stores no aggregate), or stores an aggregate star whose mass
is exactly the sum of the leaf masses in its subtree and whose position is
their mass-weighted centroid; in particular the 1e-3 tolerance of the claim
holds with slack zero. -/
theorem c5_aggregate_invariant (fuel : Nat) (u : Universe) (t : QuadTree)
    (h : generateQuadTree fuel u = some t)
    (hm : ∀ s ∈ u.stars, 0 < s.mass) :
    ∀ n ∈ subNodes t.root, isLeaf n = false →
      (leafStars n = [] ∧ n.star = none) ∨
      ∃ a, n.star = some a ∧ a.mass = massSum n ∧
        a.position.x = momentX n / massSum n ∧ a.position.y = momentY n / massSum n ∧
        |a.position.x - momentX n / massSum n| ≤ 1e-3 ∧
        |a.position.y - momentY n / massSum n| ≤ 1e-3 := by
  obtain ⟨hperm, hagg, _⟩ := generateQuadTree_spec fuel u t h
    (fun s hs => le_of_lt (hm s hs))
  intro n hn hleaf
  have hpos : ∀ s ∈ leafStars n, 0 < s.mass := by
    intro s hs
    have hroot := leafStars_subNodes_subset t.root n hn s hs
    exact hm s (List.mem_of_mem_filter (hperm.subset hroot))
  have haggn := aggOK_subNodes t.root hagg n hn
  cases n with
  | base q st => cases hleaf
  | quad q st a b c d =>
      rw [aggOK_quad_iff] at haggn
      obtain ⟨hnone, hsome, _, _, _, _⟩ := haggn
      cases st with
      | none =>
          left
          have h0 : massSum (Node.quad q none a b c d) = 0 := by
            rw [massSum_quad]
            exact hnone rfl
          refine ⟨?_, rfl⟩
          cases hls : leafStars (Node.quad q none a b c d) with
          | nil => rfl
          | cons s rest =>
              exfalso
              have hsmem : s ∈ leafStars (Node.quad q none a b c d) := by
                rw [hls]
                simp
              have hz := massSum_zero_masses _ (fun x hx => le_of_lt (hpos x hx)) h0 s hsmem
              exact absurd hz (ne_of_gt (hpos s hsmem))
      | some ag =>
          right
          obtain ⟨hmass, hx, hy, hp⟩ := hsome ag rfl
          have hmassn : ag.mass = massSum (Node.quad q (some ag) a b c d) := by
            rw [massSum_quad]
            exact hmass
          have hne : massSum (Node.quad q (some ag) a b c d) ≠ 0 := by
            rw [← hmassn]
            exact ne_of_gt hp
          have hxn : ag.position.x = momentX (Node.quad q (some ag) a b c d) /
              massSum (Node.quad q (some ag) a b c d) := by
            rw [eq_div_iff hne, ← hmassn, momentX_quad]
            exact hx
          have hyn : ag.position.y = momentY (Node.quad q (some ag) a b c d) /
              massSum (Node.quad q (some ag) a b c d) := by
            rw [eq_div_iff hne, ← hmassn, momentY_quad]
            exact hy
          refine ⟨ag, rfl, hmassn, hxn, hyn, ?_, ?_⟩
          · rw [hxn, sub_self, abs_zero]
            norm_num
          · rw [hyn, sub_self, abs_zero]
            norm_num

/-- Witness for C5: the concrete two-body universe `u2W` (bodies of mass 1 at
`(1,1)` and `(3,3)` in a width-4 domain) builds the tree `t2W`, whose single
internal node stores aggregate mass 2 at the centroid `(2,2)`. -/
theorem c5_witness :
    (generateQuadTree 2 u2W = some t2W) ∧
    (∀ s ∈ u2W.stars, 0 < s.mass) ∧
    ∀ n ∈ subNodes t2W.root, isLeaf n = false →
      (leafStars n = [] ∧ n.star = none) ∨
      ∃ a, n.star = some a ∧ a.mass = massSum n ∧
        a.position.x = momentX n / massSum n ∧ a.position.y = momentY n / massSum n ∧
        |a.position.x - momentX n / massSum n| ≤ 1e-3 ∧
        |a.position.y - momentY n / massSum n| ≤ 1e-3 := by
  have hm : ∀ s ∈ u2W.stars, 0 < s.mass := by
    intro s hs
    simp only [u2W, List.mem_cons, List.not_mem_nil, or_false] at hs
    rcases hs with h | h <;> subst h <;> norm_num [s1W, s2W, mkStar]
  exact ⟨gen_u2W_eq, hm, c5_aggregate_invariant 2 u2W t2W gen_u2W_eq hm⟩

/-- C6: with θ = 0 (indeed with any θ), the quadtree traversal returns, for
every target, exactly the direct O(n²) pairwise Newtonian sum over all
bodies, when all bodies lie inside the domain and have nonnegative masses;
in particular the answer is within 1e-6 relative error of the direct sum,
with slack zero. -/
theorem c6_theta_zero_exact (fuel : Nat) (u : Universe) (t : QuadTree)
    (h : generateQuadTree fuel u = some t)
    (hm : ∀ s ∈ u.stars, 0 ≤ s.mass)
    (hin : ∀ s ∈ u.stars, isInsideUniverse s u.width = true) :
    ∀ currStar : Star,
      calculateNetForce t.root currStar 0 = pairSum u.stars currStar ∧
      |(calculateNetForce t.root currStar 0).x - (pairSum u.stars currStar).x| ≤
        1e-6 * |(pairSum u.stars currStar).x| ∧
      |(calculateNetForce t.root currStar 0).y - (pairSum u.stars currStar).y| ≤
        1e-6 * |(pairSum u.stars currStar).y| := by
  obtain ⟨hperm, hagg, hmas⟩ := generateQuadTree_spec fuel u t h hm
  have hfilter : (u.stars.filter fun s => isInsideUniverse s u.width) = u.stars :=
    List.filter_eq_self.mpr hin
  intro curr
  have heq : calculateNetForce t.root curr 0 = pairSum u.stars curr := by
    rw [calculateNetForce_pairSum t.root curr 0 hagg hmas]
    rw [hfilter] at hperm
    exact pairSum_perm _ _ hperm curr
  refine ⟨heq, ?_, ?_⟩
  · rw [heq, sub_self, abs_zero]
    positivity
  · rw [heq, sub_self, abs_zero]
    positivity

/-- Witness for C6: on the two-body universe `u2W`, the θ = 0 traversal of the
built tree returns exactly the direct pairwise sum for the target `s1W`. -/
theorem c6_witness :
    (generateQuadTree 2 u2W = some t2W) ∧
    (∀ s ∈ u2W.stars, 0 ≤ s.mass) ∧
    (∀ s ∈ u2W.stars, isInsideUniverse s u2W.width = true) ∧
    calculateNetForce t2W.root s1W 0 = pairSum u2W.stars s1W := by
  have hm : ∀ s ∈ u2W.stars, 0 ≤ s.mass := by
    intro s hs
    simp only [u2W, List.mem_cons, List.not_mem_nil, or_false] at hs
    rcases hs with h | h <;> subst h <;> norm_num [s1W, s2W, mkStar]
  have hin : ∀ s ∈ u2W.stars, isInsideUniverse s u2W.width = true := by
    intro s hs
    simp only [u2W, List.mem_cons, List.not_mem_nil, or_false] at hs
    rcases hs with h | h <;> subst h
    · exact hin_s1W
    · exact hin_s2W
  exact ⟨gen_u2W_eq, hm, hin, (c6_theta_zero_exact 2 u2W t2W gen_u2W_eq hm hin s1W).1⟩

/-- C7 amended: the tree stores exactly the bodies inside `[0,width]²` (so
every body strictly inside is in the tree and bodies outside are silently
excluded), and the net force computed from the tree is the pairwise sum over
the in-bounds bodies only — an excluded body exerts no force.  (The original
claim's "receives no force" is false: see the counterexample.) -/
theorem c7_amended_boundary_policy (fuel : Nat) (u : Universe) (t : QuadTree)
    (h : generateQuadTree fuel u = some t)
    (hm : ∀ s ∈ u.stars, 0 ≤ s.mass) :
    (leafStars t.root).Perm (u.stars.filter fun s => isInsideUniverse s u.width) ∧
    (∀ s ∈ u.stars, isInsideUniverse s u.width = false → s ∉ leafStars t.root) ∧
    ∀ (currStar : Star) (theta : ℝ),
      calculateNetForce t.root currStar theta =
        pairSum (u.stars.filter fun s => isInsideUniverse s u.width) currStar := by
  obtain ⟨hperm, hagg, hmas⟩ := generateQuadTree_spec fuel u t h hm
  refine ⟨hperm, ?_, ?_⟩
  · intro s _ hout hmem
    have := List.of_mem_filter (hperm.subset hmem)
    rw [hout] at this
    cases this
  · intro curr theta
    rw [calculateNetForce_pairSum t.root curr theta hagg hmas]
    exact pairSum_perm _ _ hperm curr

/-- Counterexample to C7 as stated: the out-of-domain body `bC7` at `(14,2)`
(domain width 10) is excluded from the tree, yet `UpdateUniverse` still calls
`UpdateAcceleration` on it, so it RECEIVES the force of the in-bounds body:
its computed acceleration is `(-1, 0)`, not zero.  "Exerts no force" holds;
"receives no force" does not. -/
theorem c7_counterexample :
    generateQuadTree 1 uC7 = some tC7 ∧
    bC7 ∈ uC7.stars ∧
    isInsideUniverse bC7 uC7.width = false ∧
    updateAcceleration bC7 tC7 0.5 = { x := -1, y := 0 } ∧
    updateAcceleration bC7 tC7 0.5 ≠ { x := 0, y := 0 } := by
  refine ⟨gen_uC7_eq, by simp [uC7], hout_bC7, accelC7_eval, ?_⟩
  rw [accelC7_eval]
  simp only [ne_eq, orderedPair_eq_iff, not_and]
  intro hx
  exact absurd hx (by norm_num)

/-- Witness for the amended C7: on the concrete universe `uC7` (one body
inside, one outside), the tree's leaves are exactly the in-bounds filter of
the star list. -/
theorem c7_amended_witness :
    (generateQuadTree 1 uC7 = some tC7) ∧
    (∀ s ∈ uC7.stars, 0 ≤ s.mass) ∧
    (leafStars tC7.root).Perm (uC7.stars.filter fun s => isInsideUniverse s uC7.width) := by
  have hm : ∀ s ∈ uC7.stars, 0 ≤ s.mass := by
    intro s hs
    simp only [uC7, List.mem_cons, List.not_mem_nil, or_false] at hs
    rcases hs with h | h <;> subst h
    · simp only [aC7, mkStar]
      norm_num [G]
    · norm_num [bC7, mkStar]
  exact ⟨gen_uC7_eq, hm, (c7_amended_boundary_policy 1 uC7 tC7 gen_uC7_eq hm).1⟩

end

end BarnesHutSim
